import Mathlib

/-!
# Verification of the nearest-palette-color engine (`nearest.rs`, `simd.rs`)

This file is a shallow embedding, in Lean 4, of the nearest-palette-color
engine of the `libimagequant` quantization library: the perceptual
color-distance metric (`simd.rs`: `diff_scalar`, `diff_simd`), the
vantage-point tree built over the palette (`nearest.rs`:
`new_scalar` / `vp_create_node_scalar`), and the branch-and-bound
nearest-neighbor search (`search_scalar` / `vp_search_node_scalar`).

Modelling conventions:

* `f32` values are modelled as exact rationals (`ℚ`); floating-point
  rounding and overflow are idealized away.  `f32::INFINITY` is modelled
  as `⊤` in `WithTop ℚ`; the finite constant `f32::MAX` is modelled by its
  exact rational value `f32MAX = 2^128 - 2^104`.
* The Rust `Visitor` stores both `distance` and `distance_squared`,
  with `distance = distance_squared.sqrt()` at every update site; the
  embedding stores only `distance_squared` and renders every comparison
  that the code performs on the `distance` field as an exact predicate on
  squares (`sqrtGeSub`, `sqrtLeAdd` below decide `√d ≥ √r - √b` and
  `√d ≤ √r + √b`).  In the two places where the code seeds the field with
  a sentinel (`f32::MAX` in the warm-up pass, `f32::INFINITY` for an
  out-of-range hint) the sentinel is kept on the squared field, so the
  derived `distance` is `√f32MAX` (resp. `⊤`) rather than the code's
  literal `f32::MAX`; both behave identically in every comparison the
  search performs against palette-bounded radii.
* `Vec`/slices become `List`, in-place partitioning becomes pure
  list manipulation.  Rust's `sort_by_cached_key` (an unspecified stable
  sort by a cached key) is modelled by the stable `List.insertionSort`
  ordered by the same key; the spec explicitly allows any total order
  consistent with the computed distances here.
* Rust's `max_by_key` returns the last maximal element; `lastArgmax`
  below reproduces that.
* The module `pal.rs` (types `f_pixel`, `PalF`, `PalIndex`, constant
  `MAX_COLORS`) is not part of the sources provided; those data
  definitions are modelled from the spec and marked as such.
* Only the scalar paths (`new_scalar`, `search_scalar`,
  `vp_create_node_scalar`, `vp_search_node_scalar`, `diff_scalar`) are
  executable Rust on every architecture; the x86_64 SIMD path differs
  only in calling `diff_simd` for every distance, which is embedded
  separately and proved to coincide with `diff_scalar` exactly.
-/

/-- Modelled from the spec: a 4-component floating-point color
(alpha, red, green, blue), alpha-premultiplied, from the missing
`pal.rs` (`f_pixel` wrapping `ARGBF`); components modelled as exact
rationals. -/
structure Color where
  a : ℚ
  r : ℚ
  g : ℚ
  b : ℚ
deriving DecidableEq, Repr

instance : Inhabited Color := ⟨⟨0, 0, 0, 0⟩⟩

/-- Modelled from the spec: the default (zero) color, Rust's
`f_pixel::default()`. -/
def Color.zero : Color := ⟨0, 0, 0, 0⟩

/-- Modelled from the spec: a palette (`PalF` from the missing `pal.rs`):
an ordered sequence of colors, each with a popularity weight used only
during tree construction.  `colors` models `as_slice()`, `pops` models
`pop_as_slice()` (with `popularity()` extracting the weight). -/
structure PalF where
  colors : List Color
  pops : List ℚ
deriving DecidableEq, Repr

/-- Modelled from the spec: `MAX_COLORS` from the missing `pal.rs`
(palette of up to 256 colors). -/
def MAX_COLORS : ℕ := 256

/-- Modelled from the spec: `PalIndex::MAX` from the missing `pal.rs`
(`PalIndex` is the small unsigned integer type of palette indices, whose
maximum representable value is 255). -/
def PalIndexMAX : ℕ := 255

/-- Embedding of `simd.rs::diff_scalar`: per channel (R,G,B), the squared
difference against a black background and against a white background
(shifted by the alpha difference), taking the larger per channel and
summing the three channels. -/
def diff_scalar (a b : Color) : ℚ :=
  let alpha_diff := b.a - a.a
  let black_r := a.r - b.r
  let black_g := a.g - b.g
  let black_b := a.b - b.b
  let white_r := black_r + alpha_diff
  let white_g := black_g + alpha_diff
  let white_b := black_b + alpha_diff
  max (black_r * black_r) (white_r * white_r)
    + max (black_g * black_g) (white_g * white_g)
    + max (black_b * black_b) (white_b * white_b)

/-- Modelled from the spec: the capability token (`archmage::Desktop64`,
re-exported as `SimdToken64`): a zero-size value whose existence is the
proof that the vector instruction set is available.  It carries no data. -/
structure SimdToken64 where
deriving DecidableEq, Repr

/-- A 4-wide lane vector, embedding `magetypes::simd::f32x4` with exact
rational lanes. -/
structure F32x4 where
  lane0 : ℚ
  lane1 : ℚ
  lane2 : ℚ
  lane3 : ℚ
deriving DecidableEq, Repr

/-- Lanewise subtraction (`Sub` on `f32x4`). -/
def F32x4.sub (x y : F32x4) : F32x4 :=
  ⟨x.lane0 - y.lane0, x.lane1 - y.lane1, x.lane2 - y.lane2, x.lane3 - y.lane3⟩

/-- Lanewise addition (`Add` on `f32x4`). -/
def F32x4.add (x y : F32x4) : F32x4 :=
  ⟨x.lane0 + y.lane0, x.lane1 + y.lane1, x.lane2 + y.lane2, x.lane3 + y.lane3⟩

/-- Lanewise multiplication (`Mul` on `f32x4`). -/
def F32x4.mul (x y : F32x4) : F32x4 :=
  ⟨x.lane0 * y.lane0, x.lane1 * y.lane1, x.lane2 * y.lane2, x.lane3 * y.lane3⟩

/-- Lanewise maximum (`f32x4::max`). -/
def F32x4.maxLanes (x y : F32x4) : F32x4 :=
  ⟨max x.lane0 y.lane0, max x.lane1 y.lane1, max x.lane2 y.lane2, max x.lane3 y.lane3⟩

/-- Embedding of `f32x4::splat`. -/
def F32x4.splat (q : ℚ) : F32x4 := ⟨q, q, q, q⟩

/-- Embedding of `f32x4::from_array` on the `bytemuck` cast of an `ARGBF`, whose memory
layout is `[a, r, g, b]`. -/
def F32x4.fromColor (c : Color) : F32x4 := ⟨c.a, c.r, c.g, c.b⟩

/-- Embedding of `simd.rs::diff_simd`: the token-gated 4-lane computation
(`onblack = px - py`, `onwhite = onblack + splat (b.a - a.a)`,
lanewise max of squares, summing lanes 1..3 — the alpha lane 0 is
computed but discarded). -/
def diff_simd (_token : SimdToken64) (a b : Color) : ℚ :=
  let px := F32x4.fromColor a
  let py := F32x4.fromColor b
  let alpha_diff := F32x4.splat (b.a - a.a)
  let onblack := px.sub py
  let onwhite := onblack.add alpha_diff
  let max_sq := (onblack.mul onblack).maxLanes (onwhite.mul onwhite)
  max_sq.lane1 + max_sq.lane2 + max_sq.lane3

/-- One channel's contribution to `diff_scalar`: the larger of the squared
black-background and white-background differences. -/
def chanTerm (x d : ℚ) : ℚ := max (x * x) ((x + d) * (x + d))

lemma diff_scalar_eq_chanTerms (a b : Color) :
    diff_scalar a b =
      chanTerm (a.r - b.r) (b.a - a.a) + chanTerm (a.g - b.g) (b.a - a.a)
        + chanTerm (a.b - b.b) (b.a - a.a) := rfl

lemma chanTerm_nonneg (x d : ℚ) : 0 ≤ chanTerm x d :=
  le_max_of_le_left (mul_self_nonneg x)

lemma diff_scalar_nonneg (a b : Color) : 0 ≤ diff_scalar a b := by
  rw [diff_scalar_eq_chanTerms]
  have h1 := chanTerm_nonneg (a.r - b.r) (b.a - a.a)
  have h2 := chanTerm_nonneg (a.g - b.g) (b.a - a.a)
  have h3 := chanTerm_nonneg (a.b - b.b) (b.a - a.a)
  linarith

lemma chanTerm_comm (x d : ℚ) : chanTerm (-x) (-d) = chanTerm x d := by
  unfold chanTerm
  congr 1 <;> ring

lemma diff_scalar_comm (a b : Color) : diff_scalar a b = diff_scalar b a := by
  rw [diff_scalar_eq_chanTerms, diff_scalar_eq_chanTerms]
  rw [show b.r - a.r = -(a.r - b.r) by ring, show b.g - a.g = -(a.g - b.g) by ring,
    show b.b - a.b = -(a.b - b.b) by ring, show a.a - b.a = -(b.a - a.a) by ring]
  rw [chanTerm_comm, chanTerm_comm, chanTerm_comm]

lemma diff_simd_eq_diff_scalar (t : SimdToken64) (a b : Color) :
    diff_simd t a b = diff_scalar a b := rfl

/-- The constant `LEAF_MAX_SIZE` from `nearest.rs`. -/
def LEAF_MAX_SIZE : ℕ := 6

/-- Embedding of the `Node`/`NodeInner` pair from `nearest.rs` as a single
inductive: every node carries its vantage color and source palette index;
an internal node adds the squared radius and two children (the code also
caches `radius = radius_squared.sqrt()`, derived here); a leaf adds its
inline list of (palette index, color) pairs (the code's fixed arrays of
capacity `LEAF_MAX_SIZE` restricted to the `len` live entries). -/
inductive Node where
  | nodes (vantage_point : Color) (idx : ℕ) (radius_squared : ℚ) (near far : Node)
  | leaf (vantage_point : Color) (idx : ℕ) (entries : List (ℕ × Color))
deriving DecidableEq, Repr

instance : Inhabited Node := ⟨Node.leaf default 0 []⟩

/-- Embedding of the `Visitor` query accumulator.  The code stores both
`distance` and `distance_squared` with `distance = distance_squared.sqrt()`
at every update; only the square is stored here, in `WithTop ℚ` so that
the `f32::INFINITY` initialization is `⊤`. -/
structure Visitor where
  distance_squared : WithTop ℚ
  idx : ℕ
  exclude : Option ℕ
deriving DecidableEq, Repr

/-- Embedding of `Visitor::visit`: adopt the candidate iff it is strictly
closer and not the excluded index. -/
def Visitor.visit (self : Visitor) (distance_squared : ℚ) (idx : ℕ) : Visitor :=
  if (distance_squared : WithTop ℚ) < self.distance_squared ∧ self.exclude ≠ some idx then
    { self with distance_squared := (distance_squared : WithTop ℚ), idx := idx }
  else self

/-- Exact rendering of the code's pruning test
`distance >= radius - best_candidate.distance`, i.e. `√D ≥ √R - √B`,
on the squared values (`B = ⊤` renders `f32::INFINITY`, where the test is
vacuously true).  For nonnegative rationals, `√R ≤ √D + √B` iff
`R ≤ D + B` or `(R - D - B)^2 ≤ 4·D·B`. -/
def sqrtGeSub (D R : ℚ) (B : WithTop ℚ) : Bool :=
  WithTop.recTopCoe true
    (fun b => decide (R ≤ D + b) || decide ((R - D - b) ^ 2 ≤ 4 * (D * b))) B

/-- Exact rendering of the code's pruning test
`distance <= radius + best_candidate.distance`, i.e. `√D ≤ √R + √B`,
on the squared values. -/
def sqrtLeAdd (D R : ℚ) (B : WithTop ℚ) : Bool :=
  WithTop.recTopCoe true
    (fun b => decide (D ≤ R + b) || decide ((D - R - b) ^ 2 ≤ 4 * (R * b))) B

/-- Embedding of `vp_search_node_scalar`: visit the node's vantage, then
either scan the leaf's inline list, or recurse into the matching child and
conditionally (branch-and-bound) into the other.  The code's
`loop`/`continue` tail-iteration on one child is rendered as a direct
recursive call. -/
def vp_search_node_scalar : Node → Color → Visitor → Visitor
  | Node.leaf vantage_point idx entries, needle, best_candidate =>
      let b := best_candidate.visit (diff_scalar vantage_point needle) idx
      entries.foldl (fun acc e => acc.visit (diff_scalar e.2 needle) e.1) b
  | Node.nodes vantage_point idx radius_squared near far, needle, best_candidate =>
      let distance_squared := diff_scalar vantage_point needle
      let b := best_candidate.visit distance_squared idx
      if distance_squared < radius_squared then
        let b1 := vp_search_node_scalar near needle b
        if sqrtGeSub distance_squared radius_squared b1.distance_squared then
          vp_search_node_scalar far needle b1
        else b1
      else
        let b1 := vp_search_node_scalar far needle b
        if sqrtLeAdd distance_squared radius_squared b1.distance_squared then
          vp_search_node_scalar near needle b1
        else b1

/-- The popularity sort key used to pick the vantage:
`items.pop_as_slice().get(idx).map(|p| p.popularity()).unwrap_or_default()`. -/
def popKey (items : PalF) (e : ℕ) : ℚ := (items.pops[e]?).getD 0

/-- The distance sort key used to partition around a vantage:
`palette.get(idx).map(|px| diff(&vantage_point, px)).unwrap_or_default()`. -/
def sortKey (palette : List Color) (vantage_point : Color) (e : ℕ) : ℚ :=
  ((palette[e]?).map fun px => diff_scalar vantage_point px).getD 0

/-- Fold step for `lastArgmax`: keep the position of the maximal key,
later positions winning ties (Rust's `max_by_key` returns the last
maximal element). -/
def lastArgmaxAux (key : ℕ → ℚ) : List ℕ → ℕ → ℕ × ℚ → ℕ × ℚ
  | [], _, best => best
  | x :: xs, pos, best =>
      lastArgmaxAux key xs (pos + 1) (if best.2 ≤ key x then (pos, key x) else best)

/-- Embedding of
`indexes.iter().enumerate().max_by_key(...).map(|(n, _)| n).unwrap_or_default()`. -/
def lastArgmax (key : ℕ → ℚ) : List ℕ → ℕ
  | [] => 0
  | x :: xs => (lastArgmaxAux key xs 1 (0, key x)).1

/-- Embedding of `indexes.swap(most_popular_item, 0)` (total rendering;
both positions are always in bounds at the call site). -/
def swapToFront (l : List ℕ) (k : ℕ) : List ℕ :=
  match l[0]?, l[k]? with
  | some a, some b => (l.set 0 b).set k a
  | _, _ => l

/-- Embedding of `vp_create_node_scalar`, with an explicit structural fuel
so that the definition is accepted by structural recursion (each recursive
call is on a shorter list, so any `fuel ≥ indexes.length` computes the
fixpoint; the `fuel = 0` arm with 2 or more indexes is unreachable under
that bound).  Singleton or empty slices make a childless leaf node;
otherwise the most popular entry (last maximal, as Rust's `max_by_key`)
is swapped to the front and becomes the vantage, the rest are sorted by
distance to it, small remainders are stored inline in a leaf, larger ones
are split at the midpoint into near/far subtrees with
`radius_squared` = distance from the vantage to the first far element. -/
def vpCreateNodeFuel (items : PalF) : ℕ → List ℕ → Node
  | fuel, indexes =>
    if indexes.length ≤ 1 then
      let idx := indexes.headD 0
      Node.leaf ((items.colors[idx]?).getD default) idx []
    else
      match fuel with
      | 0 => Node.leaf default 0 []
      | fuel + 1 =>
        let most_popular_item := lastArgmax (popKey items) indexes
        let swapped := swapToFront indexes most_popular_item
        let ref_ := swapped.headD 0
        let rest := swapped.tail
        let vantage_point := (items.colors[ref_]?).getD default
        let sorted := rest.insertionSort fun i j =>
          sortKey items.colors vantage_point i ≤ sortKey items.colors vantage_point j
        if sorted.length ≤ LEAF_MAX_SIZE then
          Node.leaf vantage_point ref_
            (sorted.map fun e =>
              match items.colors[e]? with
              | some c => (e, c)
              | none => (0, default))
        else
          let half_index := sorted.length / 2
          let near := sorted.take half_index
          let far := sorted.drop half_index
          let radius_squared := sortKey items.colors vantage_point (far.headD 0)
          Node.nodes vantage_point ref_ radius_squared
            (vpCreateNodeFuel items fuel near) (vpCreateNodeFuel items fuel far)

/-- Embedding of `vp_create_node_scalar`: the fueled builder at adequate fuel. -/
def vp_create_node_scalar (indexes : List ℕ) (items : PalF) : Node :=
  vpCreateNodeFuel items indexes.length indexes

/-- The construction error taxonomy: `Unsupported` is the only failure
mode of this core. -/
inductive Error where
  | unsupported
deriving DecidableEq, Repr

/-- Embedding of the `Nearest` index: root node, borrowed palette, and the
per-entry quartered nearest-other-color squared distances. -/
structure Nearest where
  root : Node
  palette : PalF
  nearest_other_color_dist : List ℚ
deriving DecidableEq, Repr

/-- The exact rational value of `f32::MAX`, the warm-up pass's initial
sentinel distance. -/
def f32MAX : ℚ := 2 ^ 128 - 2 ^ 104

/-- The warm-up query of `new_scalar` for palette entry `i`: search the
finished tree for entry `i`'s own color with `exclude = Some(i)`, starting
from the `f32::MAX` sentinel. -/
def warmUp (root : Node) (palette : PalF) (i : ℕ) : Visitor :=
  vp_search_node_scalar root ((palette.colors[i]?).getD default)
    { distance_squared := ((f32MAX : ℚ) : WithTop ℚ), idx := 0, exclude := some i }

/-- The successfully built index of `new_scalar`: the tree over all
palette indices plus the warm-up cache
`nearest_other_color_dist[i] = best.distance_squared / 4` for `i` below
the palette length (array entries beyond it keep their `0.` initializer,
up to `MAX_COLORS`). -/
def mkNearestScalar (palette : PalF) : Nearest :=
  let root := vp_create_node_scalar (List.range palette.colors.length) palette
  { root := root
    palette := palette
    nearest_other_color_dist :=
      (List.range MAX_COLORS).map fun i =>
        if i < palette.colors.length then
          (warmUp root palette i).distance_squared.untop' 0 / 4
        else 0 }

/-- Embedding of `new_scalar`: reject palettes longer than
`PalIndex::MAX + 1` or empty, otherwise build the tree and run the
warm-up pass. -/
def new_scalar (palette : PalF) : Except Error Nearest :=
  if palette.colors.length > PalIndexMAX + 1 then Except.error Error.unsupported
  else if (List.range palette.colors.length).isEmpty then Except.error Error.unsupported
  else Except.ok (mkNearestScalar palette)

/-- Embedding of `Nearest::search_scalar`: if the likely hint is a valid
palette index, try the short-circuit against the cached quartered
nearest-other-color distance, else seed the accumulator with the direct
guess; an out-of-range hint seeds with `f32::INFINITY` (`⊤`).  Then run
the tree search and return `(idx, distance_squared)`. -/
def Nearest.search_scalar (self : Nearest) (px : Color) (likely_colormap_index : ℕ) :
    ℕ × WithTop ℚ :=
  match self.palette.colors[likely_colormap_index]? with
  | some pal_px =>
      let guess_diff := diff_scalar px pal_px
      if guess_diff < self.nearest_other_color_dist.getD likely_colormap_index 0 then
        (likely_colormap_index, (guess_diff : WithTop ℚ))
      else
        let b := vp_search_node_scalar self.root px
          { distance_squared := (guess_diff : WithTop ℚ), idx := likely_colormap_index,
            exclude := none }
        (b.idx, b.distance_squared)
  | none =>
      let b := vp_search_node_scalar self.root px
        { distance_squared := ⊤, idx := 0, exclude := none }
      (b.idx, b.distance_squared)

/-- All "vantage slots" of a (sub)tree: every node's own vantage index
plus each leaf's inline list of indices. -/
def slots : Node → List ℕ
  | Node.leaf _ idx entries => idx :: entries.map Prod.fst
  | Node.nodes _ idx _ near far => idx :: (slots near ++ slots far)

/-- The data of one internal node, for stating tree invariants. -/
structure InternalView where
  vantage_point : Color
  radius_squared : ℚ
  near : Node
  far : Node
deriving DecidableEq, Repr

/-- Every internal node of a tree, in preorder. -/
def internals : Node → List InternalView
  | Node.leaf _ _ _ => []
  | Node.nodes v _ R near far =>
      ⟨v, R, near, far⟩ :: (internals near ++ internals far)

/-! ### Real-valued facts about the metric: the comparator predicates
decide the square-root comparisons exactly, and the square root of
`diff_scalar` satisfies the triangle inequality (it is the norm of a
linear image, per channel the ℓ∞ norm of the black/white difference pair,
combined in ℓ2 across the three channels). -/

lemma cauchy3 (u1 u2 u3 v1 v2 v3 : ℝ) :
    (u1 * v1 + u2 * v2 + u3 * v3) ^ 2
      ≤ (u1 ^ 2 + u2 ^ 2 + u3 ^ 2) * (v1 ^ 2 + v2 ^ 2 + v3 ^ 2) := by
  nlinarith [sq_nonneg (u1 * v2 - u2 * v1), sq_nonneg (u1 * v3 - u3 * v1),
    sq_nonneg (u2 * v3 - u3 * v2)]

lemma minkowski3 (u1 u2 u3 v1 v2 v3 : ℝ) :
    Real.sqrt ((u1 + v1) ^ 2 + (u2 + v2) ^ 2 + (u3 + v3) ^ 2)
      ≤ Real.sqrt (u1 ^ 2 + u2 ^ 2 + u3 ^ 2) + Real.sqrt (v1 ^ 2 + v2 ^ 2 + v3 ^ 2) := by
  have hU0 : (0 : ℝ) ≤ u1 ^ 2 + u2 ^ 2 + u3 ^ 2 := by positivity
  have hV0 : (0 : ℝ) ≤ v1 ^ 2 + v2 ^ 2 + v3 ^ 2 := by positivity
  have hdot : u1 * v1 + u2 * v2 + u3 * v3
      ≤ Real.sqrt (u1 ^ 2 + u2 ^ 2 + u3 ^ 2) * Real.sqrt (v1 ^ 2 + v2 ^ 2 + v3 ^ 2) := by
    rcases le_total (u1 * v1 + u2 * v2 + u3 * v3) 0 with h | h
    · exact h.trans (by positivity)
    · have hsq : (u1 * v1 + u2 * v2 + u3 * v3) ^ 2
          ≤ (Real.sqrt (u1 ^ 2 + u2 ^ 2 + u3 ^ 2)
              * Real.sqrt (v1 ^ 2 + v2 ^ 2 + v3 ^ 2)) ^ 2 := by
        rw [mul_pow, Real.sq_sqrt hU0, Real.sq_sqrt hV0]
        exact cauchy3 u1 u2 u3 v1 v2 v3
      have hs := Real.sqrt_le_sqrt hsq
      rwa [Real.sqrt_sq h, Real.sqrt_sq (by positivity)] at hs
  rw [Real.sqrt_le_iff]
  refine ⟨by positivity, ?_⟩
  have h1 := Real.sq_sqrt hU0
  have h2 := Real.sq_sqrt hV0
  nlinarith [hdot]

lemma max_mul_self_eq (u v : ℝ) : max (u * u) (v * v) = max |u| |v| ^ 2 := by
  rcases le_total |u| |v| with h | h
  · have huv : u * u ≤ v * v := by
      have := mul_le_mul h h (abs_nonneg u) (abs_nonneg v)
      rwa [abs_mul_abs_self, abs_mul_abs_self] at this
    rw [max_eq_right huv, max_eq_right h, sq_abs, sq]
  · have huv : v * v ≤ u * u := by
      have := mul_le_mul h h (abs_nonneg v) (abs_nonneg u)
      rwa [abs_mul_abs_self, abs_mul_abs_self] at this
    rw [max_eq_left huv, max_eq_left h, sq_abs, sq]

lemma max_abs_subadd (x1 x2 d1 d2 : ℝ) :
    max |x1 + x2| |x1 + x2 + (d1 + d2)| ≤ max |x1| |x1 + d1| + max |x2| |x2 + d2| := by
  apply max_le
  · calc |x1 + x2| ≤ |x1| + |x2| := abs_add _ _
      _ ≤ _ := add_le_add (le_max_left _ _) (le_max_left _ _)
  · calc |x1 + x2 + (d1 + d2)| = |x1 + d1 + (x2 + d2)| := by ring_nf
      _ ≤ |x1 + d1| + |x2 + d2| := abs_add _ _
      _ ≤ _ := add_le_add (le_max_right _ _) (le_max_right _ _)

lemma diff_scalar_cast (a b : Color) :
    ((diff_scalar a b : ℚ) : ℝ) =
      max |((a.r : ℝ) - b.r)| |((a.r : ℝ) - b.r) + ((b.a : ℝ) - a.a)| ^ 2
        + max |((a.g : ℝ) - b.g)| |((a.g : ℝ) - b.g) + ((b.a : ℝ) - a.a)| ^ 2
        + max |((a.b : ℝ) - b.b)| |((a.b : ℝ) - b.b) + ((b.a : ℝ) - a.a)| ^ 2 := by
  rw [diff_scalar_eq_chanTerms]
  unfold chanTerm
  push_cast [Rat.cast_max]
  rw [max_mul_self_eq, max_mul_self_eq, max_mul_self_eq]

/-- Triangle inequality for the square root of the perceptual metric. -/
lemma diff_scalar_triangle (a b c : Color) :
    Real.sqrt ((diff_scalar a c : ℚ) : ℝ)
      ≤ Real.sqrt ((diff_scalar a b : ℚ) : ℝ) + Real.sqrt ((diff_scalar b c : ℚ) : ℝ) := by
  rw [diff_scalar_cast a c, diff_scalar_cast a b, diff_scalar_cast b c]
  have step : ∀ x1 x2 d1 d2 : ℝ,
      max |x1 + x2| |x1 + x2 + (d1 + d2)| ^ 2
        ≤ (max |x1| |x1 + d1| + max |x2| |x2 + d2|) ^ 2 := by
    intro x1 x2 d1 d2
    exact pow_le_pow_left₀ (le_max_of_le_left (abs_nonneg _)) (max_abs_subadd x1 x2 d1 d2) 2
  have hr := step ((a.r : ℝ) - b.r) ((b.r : ℝ) - c.r) ((b.a : ℝ) - a.a) ((c.a : ℝ) - b.a)
  have hg := step ((a.g : ℝ) - b.g) ((b.g : ℝ) - c.g) ((b.a : ℝ) - a.a) ((c.a : ℝ) - b.a)
  have hb := step ((a.b : ℝ) - b.b) ((b.b : ℝ) - c.b) ((b.a : ℝ) - a.a) ((c.a : ℝ) - b.a)
  have hxr : (a.r : ℝ) - c.r = ((a.r : ℝ) - b.r) + ((b.r : ℝ) - c.r) := by ring
  have hxg : (a.g : ℝ) - c.g = ((a.g : ℝ) - b.g) + ((b.g : ℝ) - c.g) := by ring
  have hxb : (a.b : ℝ) - c.b = ((a.b : ℝ) - b.b) + ((b.b : ℝ) - c.b) := by ring
  have hxa : (c.a : ℝ) - a.a = ((b.a : ℝ) - a.a) + ((c.a : ℝ) - b.a) := by ring
  rw [hxr, hxg, hxb, hxa]
  refine le_trans (Real.sqrt_le_sqrt (add_le_add (add_le_add hr hg) hb)) ?_
  exact minkowski3 _ _ _ _ _ _

lemma sqrt_le_add_iff (D R b : ℝ) (hD : 0 ≤ D) (hb : 0 ≤ b) :
    Real.sqrt R ≤ Real.sqrt D + Real.sqrt b
      ↔ (R ≤ D + b ∨ (R - D - b) ^ 2 ≤ 4 * (D * b)) := by
  have hy : (0 : ℝ) ≤ Real.sqrt D + Real.sqrt b := by positivity
  have hysq : (Real.sqrt D + Real.sqrt b) ^ 2 = D + b + 2 * Real.sqrt (D * b) := by
    rw [add_sq, Real.sq_sqrt hD, Real.sq_sqrt hb, Real.sqrt_mul hD]
    ring
  have hDb : (0 : ℝ) ≤ D * b := mul_nonneg hD hb
  constructor
  · intro h
    rcases le_or_lt R (D + b) with hcase | hcase
    · exact Or.inl hcase
    · right
      have hR0 : (0 : ℝ) ≤ R := by linarith
      have hRy : R ≤ (Real.sqrt D + Real.sqrt b) ^ 2 := by
        calc R = Real.sqrt R ^ 2 := (Real.sq_sqrt hR0).symm
          _ ≤ (Real.sqrt D + Real.sqrt b) ^ 2 := pow_le_pow_left₀ (Real.sqrt_nonneg R) h 2
      rw [hysq] at hRy
      have h1 : R - D - b ≤ 2 * Real.sqrt (D * b) := by linarith
      have h2 : (R - D - b) ^ 2 ≤ (2 * Real.sqrt (D * b)) ^ 2 :=
        pow_le_pow_left₀ (by linarith) h1 2
      calc (R - D - b) ^ 2 ≤ (2 * Real.sqrt (D * b)) ^ 2 := h2
        _ = 4 * (D * b) := by rw [mul_pow, Real.sq_sqrt hDb]; norm_num
  · intro h
    rcases le_or_lt R 0 with hR0 | hR0
    · calc Real.sqrt R = 0 := Real.sqrt_eq_zero_of_nonpos hR0
        _ ≤ _ := hy
    · have key : R ≤ (Real.sqrt D + Real.sqrt b) ^ 2 := by
        rw [hysq]
        rcases h with h | h
        · have := Real.sqrt_nonneg (D * b)
          linarith
        · rcases le_or_lt (R - D - b) 0 with hneg | hpos
          · have := Real.sqrt_nonneg (D * b)
            linarith
          · have hstep : R - D - b ≤ 2 * Real.sqrt (D * b) := by
              have hs := Real.sqrt_le_sqrt h
              rw [Real.sqrt_sq hpos.le] at hs
              calc R - D - b ≤ Real.sqrt (4 * (D * b)) := hs
                _ = 2 * Real.sqrt (D * b) := by
                    rw [show (4 : ℝ) * (D * b) = 2 ^ 2 * (D * b) by norm_num,
                      Real.sqrt_mul (by positivity), Real.sqrt_sq (by norm_num : (0:ℝ) ≤ 2)]
            linarith
      calc Real.sqrt R ≤ Real.sqrt ((Real.sqrt D + Real.sqrt b) ^ 2) := Real.sqrt_le_sqrt key
        _ = Real.sqrt D + Real.sqrt b := Real.sqrt_sq hy

lemma sqrtGeSub_top (D R : ℚ) : sqrtGeSub D R ⊤ = true := rfl

lemma sqrtLeAdd_top (D R : ℚ) : sqrtLeAdd D R ⊤ = true := rfl

lemma sqrtGeSub_coe (D R b : ℚ) :
    sqrtGeSub D R (b : WithTop ℚ)
      = (decide (R ≤ D + b) || decide ((R - D - b) ^ 2 ≤ 4 * (D * b))) := by
  simp [sqrtGeSub]

lemma sqrtLeAdd_coe (D R b : ℚ) :
    sqrtLeAdd D R (b : WithTop ℚ)
      = (decide (D ≤ R + b) || decide ((D - R - b) ^ 2 ≤ 4 * (R * b))) := by
  simp [sqrtLeAdd]

/-- The embedded test `sqrtGeSub` decides exactly the code's comparison
`distance >= radius - best.distance`, in the form `√R ≤ √D + √B`. -/
lemma sqrtGeSub_iff (D R b : ℚ) (hD : 0 ≤ D) (hb : 0 ≤ b) :
    sqrtGeSub D R (b : WithTop ℚ) = true
      ↔ Real.sqrt (R : ℝ) ≤ Real.sqrt (D : ℝ) + Real.sqrt (b : ℝ) := by
  have hD' : (0 : ℝ) ≤ (D : ℝ) := by exact_mod_cast hD
  have hb' : (0 : ℝ) ≤ (b : ℝ) := by exact_mod_cast hb
  rw [sqrtGeSub_coe, Bool.or_eq_true, decide_eq_true_eq, decide_eq_true_eq,
    sqrt_le_add_iff (D : ℝ) (R : ℝ) (b : ℝ) hD' hb']
  constructor
  · rintro (h | h)
    · left; exact_mod_cast h
    · right; exact_mod_cast h
  · rintro (h | h)
    · left; exact_mod_cast h
    · right; exact_mod_cast h

/-- The embedded test `sqrtLeAdd` decides exactly the code's comparison
`distance <= radius + best.distance`, in the form `√D ≤ √R + √B`. -/
lemma sqrtLeAdd_iff (D R b : ℚ) (hR : 0 ≤ R) (hb : 0 ≤ b) :
    sqrtLeAdd D R (b : WithTop ℚ) = true
      ↔ Real.sqrt (D : ℝ) ≤ Real.sqrt (R : ℝ) + Real.sqrt (b : ℝ) := by
  have hR' : (0 : ℝ) ≤ (R : ℝ) := by exact_mod_cast hR
  have hb' : (0 : ℝ) ≤ (b : ℝ) := by exact_mod_cast hb
  rw [sqrtLeAdd_coe, Bool.or_eq_true, decide_eq_true_eq, decide_eq_true_eq,
    sqrt_le_add_iff (R : ℝ) (D : ℝ) (b : ℝ) hR' hb']
  constructor
  · rintro (h | h)
    · left; exact_mod_cast h
    · right; exact_mod_cast h
  · rintro (h | h)
    · left; exact_mod_cast h
    · right; exact_mod_cast h

/-! ### Search infrastructure: the candidates a (sub)tree offers, and how
`visit` and the tree walk transform the accumulator. -/

/-- All (palette index, stored color) candidate pairs a subtree can offer
to `visit`: every node's own (idx, vantage) plus each leaf's inline
entries. -/
def nodeCands : Node → List (ℕ × Color)
  | Node.leaf v i entries => (i, v) :: entries
  | Node.nodes v i _ near far => (i, v) :: (nodeCands near ++ nodeCands far)

lemma slots_eq_map_cands (n : Node) : slots n = (nodeCands n).map Prod.fst := by
  induction n with
  | leaf v i entries => rfl
  | nodes v i R near far ihn ihf =>
      simp only [slots, nodeCands, List.map_cons, List.map_append, ihn, ihf]

lemma Visitor.visit_exclude (b : Visitor) (d : ℚ) (i : ℕ) :
    (b.visit d i).exclude = b.exclude := by
  unfold Visitor.visit
  split <;> rfl

lemma Visitor.visit_mono (b : Visitor) (d : ℚ) (i : ℕ) :
    (b.visit d i).distance_squared ≤ b.distance_squared := by
  unfold Visitor.visit
  split
  · rename_i h
    exact le_of_lt h.1
  · exact le_rfl

lemma Visitor.visit_le (b : Visitor) (d : ℚ) (i : ℕ) (h : b.exclude ≠ some i) :
    (b.visit d i).distance_squared ≤ ((d : ℚ) : WithTop ℚ) := by
  unfold Visitor.visit
  split
  · exact le_rfl
  · rename_i hcond
    have hnlt : ¬ ((d : WithTop ℚ) < b.distance_squared) := fun hp => hcond ⟨hp, h⟩
    exact not_lt.mp hnlt

lemma Visitor.visit_cases (b : Visitor) (d : ℚ) (i : ℕ) :
    b.visit d i = b ∨
      ((b.visit d i).distance_squared = ((d : ℚ) : WithTop ℚ) ∧ (b.visit d i).idx = i
        ∧ b.exclude ≠ some i) := by
  unfold Visitor.visit
  split
  · rename_i h
    exact Or.inr ⟨rfl, rfl, h.2⟩
  · exact Or.inl rfl

/-- The leaf scan of `vp_search_node_scalar` as a fold. -/
def leafScan (entries : List (ℕ × Color)) (needle : Color) (b : Visitor) : Visitor :=
  entries.foldl (fun acc e => acc.visit (diff_scalar e.2 needle) e.1) b

lemma leafScan_exclude (entries : List (ℕ × Color)) (q : Color) (b : Visitor) :
    (leafScan entries q b).exclude = b.exclude := by
  induction entries generalizing b with
  | nil => rfl
  | cons e es ih =>
      rw [leafScan, List.foldl_cons, ← leafScan, ih, Visitor.visit_exclude]

lemma leafScan_mono (entries : List (ℕ × Color)) (q : Color) (b : Visitor) :
    (leafScan entries q b).distance_squared ≤ b.distance_squared := by
  induction entries generalizing b with
  | nil => exact le_rfl
  | cons e es ih =>
      rw [leafScan, List.foldl_cons, ← leafScan]
      exact le_trans (ih _) (Visitor.visit_mono b _ _)

lemma leafScan_le (entries : List (ℕ × Color)) (q : Color) (b : Visitor)
    (e : ℕ × Color) (he : e ∈ entries) (hex : b.exclude ≠ some e.1) :
    (leafScan entries q b).distance_squared ≤ ((diff_scalar e.2 q : ℚ) : WithTop ℚ) := by
  induction entries generalizing b with
  | nil => cases he
  | cons p ps ih =>
      rw [leafScan, List.foldl_cons, ← leafScan]
      rcases List.mem_cons.mp he with rfl | hmem
      · exact le_trans (leafScan_mono ps q _) (Visitor.visit_le b _ _ hex)
      · exact ih _ hmem (by rw [Visitor.visit_exclude]; exact hex)

lemma leafScan_achieves (entries : List (ℕ × Color)) (q : Color) (b : Visitor) :
    leafScan entries q b = b ∨
      ∃ p ∈ entries, (leafScan entries q b).distance_squared = ((diff_scalar p.2 q : ℚ) : WithTop ℚ)
        ∧ (leafScan entries q b).idx = p.1 ∧ b.exclude ≠ some p.1 := by
  induction entries generalizing b with
  | nil => exact Or.inl rfl
  | cons p ps ih =>
      rw [leafScan, List.foldl_cons, ← leafScan]
      rcases ih (b.visit (diff_scalar p.2 q) p.1) with heq | ⟨p', hp', hd, hi, hx⟩
      · rw [heq]
        rcases Visitor.visit_cases b (diff_scalar p.2 q) p.1 with heq2 | ⟨hd2, hi2, hx2⟩
        · exact Or.inl heq2
        · exact Or.inr ⟨p, List.mem_cons_self p ps, hd2, hi2, hx2⟩
      · refine Or.inr ⟨p', List.mem_cons_of_mem p hp', hd, hi, ?_⟩
        rwa [Visitor.visit_exclude] at hx

lemma vp_search_leaf (v : Color) (i : ℕ) (entries : List (ℕ × Color)) (q : Color) (b : Visitor) :
    vp_search_node_scalar (Node.leaf v i entries) q b
      = leafScan entries q (b.visit (diff_scalar v q) i) := rfl

lemma search_exclude (n : Node) (q : Color) (b : Visitor) :
    (vp_search_node_scalar n q b).exclude = b.exclude := by
  induction n generalizing b with
  | leaf v i entries =>
      rw [vp_search_leaf, leafScan_exclude, Visitor.visit_exclude]
  | nodes v i R near far ihn ihf =>
      show (if diff_scalar v q < R then _ else _ : Visitor).exclude = _
      split
      · split
        · rw [ihf, ihn, Visitor.visit_exclude]
        · rw [ihn, Visitor.visit_exclude]
      · split
        · rw [ihn, ihf, Visitor.visit_exclude]
        · rw [ihf, Visitor.visit_exclude]

lemma search_mono (n : Node) (q : Color) (b : Visitor) :
    (vp_search_node_scalar n q b).distance_squared ≤ b.distance_squared := by
  induction n generalizing b with
  | leaf v i entries =>
      rw [vp_search_leaf]
      exact le_trans (leafScan_mono _ _ _) (Visitor.visit_mono _ _ _)
  | nodes v i R near far ihn ihf =>
      show (if diff_scalar v q < R then _ else _ : Visitor).distance_squared ≤ _
      split
      · split
        · exact le_trans (ihf _) (le_trans (ihn _) (Visitor.visit_mono _ _ _))
        · exact le_trans (ihn _) (Visitor.visit_mono _ _ _)
      · split
        · exact le_trans (ihn _) (le_trans (ihf _) (Visitor.visit_mono _ _ _))
        · exact le_trans (ihf _) (Visitor.visit_mono _ _ _)

lemma vp_search_nodes_def (v : Color) (i : ℕ) (R : ℚ) (near far : Node) (q : Color)
    (b : Visitor) :
    vp_search_node_scalar (Node.nodes v i R near far) q b =
      if diff_scalar v q < R then
        (if sqrtGeSub (diff_scalar v q) R
            (vp_search_node_scalar near q (b.visit (diff_scalar v q) i)).distance_squared then
          vp_search_node_scalar far q (vp_search_node_scalar near q (b.visit (diff_scalar v q) i))
        else vp_search_node_scalar near q (b.visit (diff_scalar v q) i))
      else
        (if sqrtLeAdd (diff_scalar v q) R
            (vp_search_node_scalar far q (b.visit (diff_scalar v q) i)).distance_squared then
          vp_search_node_scalar near q (vp_search_node_scalar far q (b.visit (diff_scalar v q) i))
        else vp_search_node_scalar far q (b.visit (diff_scalar v q) i)) := rfl

lemma Visitor.visit_nonneg (b : Visitor) (d : ℚ) (i : ℕ) (hd : 0 ≤ d)
    (hb : 0 ≤ b.distance_squared) : 0 ≤ (b.visit d i).distance_squared := by
  unfold Visitor.visit
  split
  · show (0 : WithTop ℚ) ≤ ((d : ℚ) : WithTop ℚ)
    exact_mod_cast hd
  · exact hb

lemma leafScan_nonneg (entries : List (ℕ × Color)) (q : Color) (b : Visitor)
    (hb : 0 ≤ b.distance_squared) : 0 ≤ (leafScan entries q b).distance_squared := by
  induction entries generalizing b with
  | nil => exact hb
  | cons e es ih =>
      rw [leafScan, List.foldl_cons, ← leafScan]
      exact ih _ (Visitor.visit_nonneg b _ _ (diff_scalar_nonneg _ _) hb)

lemma search_nonneg (n : Node) (q : Color) (b : Visitor) (hb : 0 ≤ b.distance_squared) :
    0 ≤ (vp_search_node_scalar n q b).distance_squared := by
  induction n generalizing b with
  | leaf v i entries =>
      rw [vp_search_leaf]
      exact leafScan_nonneg _ _ _ (Visitor.visit_nonneg b _ _ (diff_scalar_nonneg _ _) hb)
  | nodes v i R near far ihn ihf =>
      rw [vp_search_nodes_def]
      have h1 := Visitor.visit_nonneg b (diff_scalar v q) i (diff_scalar_nonneg _ _) hb
      split
      · split
        · exact ihf _ (ihn _ h1)
        · exact ihn _ h1
      · split
        · exact ihn _ (ihf _ h1)
        · exact ihf _ h1

lemma le_of_sqrt_lt {x y : ℚ} (h : Real.sqrt (x : ℝ) < Real.sqrt (y : ℝ)) : x ≤ y := by
  by_contra hc
  push_neg at hc
  exact absurd (Real.sqrt_le_sqrt (by exact_mod_cast hc.le)) (not_le.mpr h)

lemma sqrt_mono_cast {x y : ℚ} (h : x ≤ y) : Real.sqrt (x : ℝ) ≤ Real.sqrt (y : ℝ) :=
  Real.sqrt_le_sqrt (by exact_mod_cast h)

/-- Soundness of the tree walk: the returned accumulator is either the
input unchanged, or records a candidate of the tree that was not excluded,
with its exact distance. -/
lemma search_achieves (n : Node) (q : Color) (b : Visitor) :
    vp_search_node_scalar n q b = b ∨
      ∃ p ∈ nodeCands n,
        (vp_search_node_scalar n q b).distance_squared = ((diff_scalar p.2 q : ℚ) : WithTop ℚ)
          ∧ (vp_search_node_scalar n q b).idx = p.1 ∧ b.exclude ≠ some p.1 := by
  induction n generalizing b with
  | leaf v i entries =>
      rw [vp_search_leaf]
      simp only [nodeCands]
      rcases leafScan_achieves entries q (b.visit (diff_scalar v q) i) with
        heq | ⟨p, hp, hd, hi, hx⟩
      · rw [heq]
        rcases Visitor.visit_cases b (diff_scalar v q) i with h2 | ⟨hd2, hi2, hx2⟩
        · exact Or.inl h2
        · exact Or.inr ⟨(i, v), List.mem_cons_self _ _, hd2, hi2, hx2⟩
      · rw [Visitor.visit_exclude] at hx
        exact Or.inr ⟨p, List.mem_cons_of_mem _ hp, hd, hi, hx⟩
  | nodes v i R near far ihn ihf =>
      rw [vp_search_nodes_def]
      simp only [nodeCands]
      have hvis : ∀ r : Visitor, r = b.visit (diff_scalar v q) i →
          (r = b ∨ ∃ p ∈ (i, v) :: (nodeCands near ++ nodeCands far),
            r.distance_squared = ((diff_scalar p.2 q : ℚ) : WithTop ℚ)
              ∧ r.idx = p.1 ∧ b.exclude ≠ some p.1) := by
        intro r hr
        subst hr
        rcases Visitor.visit_cases b (diff_scalar v q) i with h2 | ⟨hd2, hi2, hx2⟩
        · exact Or.inl h2
        · exact Or.inr ⟨(i, v), List.mem_cons_self _ _, hd2, hi2, hx2⟩
      have chain : ∀ (m1 m2 : Node) (r : Visitor),
          (∀ p ∈ nodeCands m1, p ∈ (i, v) :: (nodeCands near ++ nodeCands far)) →
          (∀ p ∈ nodeCands m2, p ∈ (i, v) :: (nodeCands near ++ nodeCands far)) →
          (∀ c : Visitor,
            vp_search_node_scalar m1 q c = c ∨
              ∃ p ∈ nodeCands m1,
                (vp_search_node_scalar m1 q c).distance_squared
                    = ((diff_scalar p.2 q : ℚ) : WithTop ℚ)
                  ∧ (vp_search_node_scalar m1 q c).idx = p.1 ∧ c.exclude ≠ some p.1) →
          (∀ c : Visitor,
            vp_search_node_scalar m2 q c = c ∨
              ∃ p ∈ nodeCands m2,
                (vp_search_node_scalar m2 q c).distance_squared
                    = ((diff_scalar p.2 q : ℚ) : WithTop ℚ)
                  ∧ (vp_search_node_scalar m2 q c).idx = p.1 ∧ c.exclude ≠ some p.1) →
          r = b.visit (diff_scalar v q) i →
          (vp_search_node_scalar m2 q (vp_search_node_scalar m1 q r) = b ∨
            ∃ p ∈ (i, v) :: (nodeCands near ++ nodeCands far),
              (vp_search_node_scalar m2 q (vp_search_node_scalar m1 q r)).distance_squared
                  = ((diff_scalar p.2 q : ℚ) : WithTop ℚ)
                ∧ (vp_search_node_scalar m2 q (vp_search_node_scalar m1 q r)).idx = p.1
                ∧ b.exclude ≠ some p.1) := by
        intro m1 m2 r hsub1 hsub2 ha1 ha2 hr
        rcases ha2 (vp_search_node_scalar m1 q r) with heq2 | ⟨p, hp, hd, hi2, hx⟩
        · rw [heq2]
          rcases ha1 r with heq1 | ⟨p, hp, hd, hi1, hx⟩
          · rw [heq1]
            exact hvis r hr
          · refine Or.inr ⟨p, hsub1 p hp, hd, hi1, ?_⟩
            subst hr
            rwa [Visitor.visit_exclude] at hx
        · refine Or.inr ⟨p, hsub2 p hp, hd, hi2, ?_⟩
          rw [search_exclude] at hx
          subst hr
          rwa [Visitor.visit_exclude] at hx
      have hsubn : ∀ p ∈ nodeCands near, p ∈ (i, v) :: (nodeCands near ++ nodeCands far) :=
        fun p hp => List.mem_cons_of_mem _ (List.mem_append_left _ hp)
      have hsubf : ∀ p ∈ nodeCands far, p ∈ (i, v) :: (nodeCands near ++ nodeCands far) :=
        fun p hp => List.mem_cons_of_mem _ (List.mem_append_right _ hp)
      have single : ∀ (m1 : Node),
          (∀ p ∈ nodeCands m1, p ∈ (i, v) :: (nodeCands near ++ nodeCands far)) →
          (∀ c : Visitor,
            vp_search_node_scalar m1 q c = c ∨
              ∃ p ∈ nodeCands m1,
                (vp_search_node_scalar m1 q c).distance_squared
                    = ((diff_scalar p.2 q : ℚ) : WithTop ℚ)
                  ∧ (vp_search_node_scalar m1 q c).idx = p.1 ∧ c.exclude ≠ some p.1) →
          (vp_search_node_scalar m1 q (b.visit (diff_scalar v q) i) = b ∨
            ∃ p ∈ (i, v) :: (nodeCands near ++ nodeCands far),
              (vp_search_node_scalar m1 q (b.visit (diff_scalar v q) i)).distance_squared
                  = ((diff_scalar p.2 q : ℚ) : WithTop ℚ)
                ∧ (vp_search_node_scalar m1 q (b.visit (diff_scalar v q) i)).idx = p.1
                ∧ b.exclude ≠ some p.1) := by
        intro m1 hsub1 ha1
        rcases ha1 (b.visit (diff_scalar v q) i) with heq1 | ⟨p, hp, hd, hi1, hx⟩
        · rw [heq1]
          exact hvis _ rfl
        · refine Or.inr ⟨p, hsub1 p hp, hd, hi1, ?_⟩
          rwa [Visitor.visit_exclude] at hx
      split
      · split
        · exact chain near far _ hsubn hsubf (fun c => ihn c) (fun c => ihf c) rfl
        · exact single near hsubn (fun c => ihn c)
      · split
        · exact chain far near _ hsubf hsubn (fun c => ihf c) (fun c => ihn c) rfl
        · exact single far hsubf (fun c => ihf c)

/-- The geometric invariant of a built tree that makes branch-and-bound
pruning sound: at every internal node, all candidates in the near subtree
are within `radius_squared` of the vantage and all candidates in the far
subtree are at least `radius_squared` away. -/
inductive TreeBounds : Node → Prop
  | leaf (v : Color) (i : ℕ) (entries : List (ℕ × Color)) :
      TreeBounds (Node.leaf v i entries)
  | nodes (v : Color) (i : ℕ) (R : ℚ) (near far : Node)
      (hR : 0 ≤ R)
      (hnear : ∀ p ∈ nodeCands near, diff_scalar v p.2 ≤ R)
      (hfar : ∀ p ∈ nodeCands far, R ≤ diff_scalar v p.2)
      (hfar0 : ∃ p ∈ nodeCands far, diff_scalar v p.2 = R)
      (hn : TreeBounds near) (hf : TreeBounds far) :
      TreeBounds (Node.nodes v i R near far)

/-- Completeness of the tree walk: no non-excluded candidate of the tree
is missed — the returned squared distance is at most the distance to any
such candidate.  This is where the pruning conditions are justified by
the triangle inequality. -/
lemma search_complete (n : Node) (q : Color) (p : ℕ × Color) :
    ∀ b : Visitor, TreeBounds n → p ∈ nodeCands n → b.exclude ≠ some p.1 →
      0 ≤ b.distance_squared →
      (vp_search_node_scalar n q b).distance_squared
        ≤ ((diff_scalar p.2 q : ℚ) : WithTop ℚ) := by
  induction n with
  | leaf v i entries =>
      intro b _ hp hex _
      rw [vp_search_leaf]
      simp only [nodeCands] at hp
      rcases List.mem_cons.mp hp with rfl | hpe
      · exact le_trans (leafScan_mono _ _ _) (Visitor.visit_le b _ _ hex)
      · exact leafScan_le entries q _ p hpe (by rw [Visitor.visit_exclude]; exact hex)
  | nodes v i R near far ihn ihf =>
      intro b hwf hp hex hb0
      cases hwf with
      | nodes _ _ _ _ _ hR hnear hfar hfar0 hn hf =>
      simp only [nodeCands] at hp
      rw [vp_search_nodes_def]
      have hvd := diff_scalar_nonneg v q
      have hb1 : 0 ≤ (b.visit (diff_scalar v q) i).distance_squared :=
        Visitor.visit_nonneg b _ _ hvd hb0
      have hex1 : (b.visit (diff_scalar v q) i).exclude = b.exclude := Visitor.visit_exclude b _ _
      rcases List.mem_cons.mp hp with rfl | hpe
      · -- the node's own vantage: the initial visit already accounts for it
        have hstep : (b.visit (diff_scalar v q) i).distance_squared
            ≤ ((diff_scalar v q : ℚ) : WithTop ℚ) := Visitor.visit_le b _ _ hex
        split
        · split
          · exact le_trans (search_mono _ _ _) (le_trans (search_mono _ _ _) hstep)
          · exact le_trans (search_mono _ _ _) hstep
        · split
          · exact le_trans (search_mono _ _ _) (le_trans (search_mono _ _ _) hstep)
          · exact le_trans (search_mono _ _ _) hstep
      · rcases List.mem_append.mp hpe with hpn | hpf
        · -- candidate lives in the near subtree
          split
          · -- query inside the radius: near is searched first
            have hres := ihn (b.visit (diff_scalar v q) i) hn hpn (by rw [hex1]; exact hex) hb1
            split
            · exact le_trans (search_mono _ _ _) hres
            · exact hres
          · -- query outside the radius: far searched first, near only if the
            -- test `sqrtLeAdd` passes; if it fails, the triangle inequality
            -- shows nothing in near can beat the current best
            rename_i hge
            split
            · rename_i hcond
              have hexs : (vp_search_node_scalar far q
                  (b.visit (diff_scalar v q) i)).exclude = b.exclude := by
                rw [search_exclude, hex1]
              exact ihn _ hn hpn (by rw [hexs]; exact hex)
                (search_nonneg _ _ _ hb1)
            · rename_i hcond
              set s1 := vp_search_node_scalar far q (b.visit (diff_scalar v q) i) with hs1
              have hs1n : 0 ≤ s1.distance_squared := search_nonneg _ _ _ hb1
              have hne : s1.distance_squared ≠ ⊤ := by
                intro htop
                rw [htop, sqrtLeAdd_top] at hcond
                exact hcond rfl
              obtain ⟨β, hβ⟩ := WithTop.ne_top_iff_exists.mp hne
              have hβ0 : (0 : ℚ) ≤ β := by
                rw [← hβ] at hs1n
                exact_mod_cast hs1n
              have hnotle : ¬ (Real.sqrt ((diff_scalar v q : ℚ) : ℝ)
                  ≤ Real.sqrt ((R : ℚ) : ℝ) + Real.sqrt ((β : ℚ) : ℝ)) := by
                intro hcontra
                rw [← hβ] at hcond
                exact hcond ((sqrtLeAdd_iff _ _ _ hR hβ0).mpr hcontra)
              have hlt : Real.sqrt ((R : ℚ) : ℝ) + Real.sqrt ((β : ℚ) : ℝ)
                  < Real.sqrt ((diff_scalar v q : ℚ) : ℝ) := not_le.mp hnotle
              have htri : Real.sqrt ((diff_scalar v q : ℚ) : ℝ)
                  ≤ Real.sqrt ((diff_scalar v p.2 : ℚ) : ℝ)
                    + Real.sqrt ((diff_scalar p.2 q : ℚ) : ℝ) := diff_scalar_triangle v p.2 q
              have hnear' : Real.sqrt ((diff_scalar v p.2 : ℚ) : ℝ)
                  ≤ Real.sqrt ((R : ℚ) : ℝ) := sqrt_mono_cast (hnear p hpn)
              have hfin : Real.sqrt ((β : ℚ) : ℝ)
                  < Real.sqrt ((diff_scalar p.2 q : ℚ) : ℝ) := by linarith
              rw [← hβ]
              exact_mod_cast le_of_sqrt_lt hfin
        · -- candidate lives in the far subtree
          split
          · -- query inside the radius: near searched first, far only if the
            -- test `sqrtGeSub` passes; if it fails, the triangle inequality
            -- shows nothing in far can beat the current best
            rename_i hlt0
            split
            · rename_i hcond
              have hexs : (vp_search_node_scalar near q
                  (b.visit (diff_scalar v q) i)).exclude = b.exclude := by
                rw [search_exclude, hex1]
              exact ihf _ hf hpf (by rw [hexs]; exact hex)
                (search_nonneg _ _ _ hb1)
            · rename_i hcond
              set s1 := vp_search_node_scalar near q (b.visit (diff_scalar v q) i) with hs1
              have hs1n : 0 ≤ s1.distance_squared := search_nonneg _ _ _ hb1
              have hne : s1.distance_squared ≠ ⊤ := by
                intro htop
                rw [htop, sqrtGeSub_top] at hcond
                exact hcond rfl
              obtain ⟨β, hβ⟩ := WithTop.ne_top_iff_exists.mp hne
              have hβ0 : (0 : ℚ) ≤ β := by
                rw [← hβ] at hs1n
                exact_mod_cast hs1n
              have hnotle : ¬ (Real.sqrt ((R : ℚ) : ℝ)
                  ≤ Real.sqrt ((diff_scalar v q : ℚ) : ℝ) + Real.sqrt ((β : ℚ) : ℝ)) := by
                intro hcontra
                rw [← hβ] at hcond
                exact hcond ((sqrtGeSub_iff _ _ _ hvd hβ0).mpr hcontra)
              have hlt : Real.sqrt ((diff_scalar v q : ℚ) : ℝ) + Real.sqrt ((β : ℚ) : ℝ)
                  < Real.sqrt ((R : ℚ) : ℝ) := not_le.mp hnotle
              have htri : Real.sqrt ((diff_scalar v p.2 : ℚ) : ℝ)
                  ≤ Real.sqrt ((diff_scalar v q : ℚ) : ℝ)
                    + Real.sqrt ((diff_scalar q p.2 : ℚ) : ℝ) := diff_scalar_triangle v q p.2
              have hfar' : Real.sqrt ((R : ℚ) : ℝ)
                  ≤ Real.sqrt ((diff_scalar v p.2 : ℚ) : ℝ) := sqrt_mono_cast (hfar p hpf)
              have hfin : Real.sqrt ((β : ℚ) : ℝ)
                  < Real.sqrt ((diff_scalar q p.2 : ℚ) : ℝ) := by linarith
              rw [← hβ, diff_scalar_comm p.2 q]
              exact_mod_cast le_of_sqrt_lt hfin
          · -- query outside the radius: far is searched first
            have hres := ihf (b.visit (diff_scalar v q) i) hf hpf (by rw [hex1]; exact hex) hb1
            split
            · exact le_trans (search_mono _ _ _) hres
            · exact hres

/-! ### Construction invariants: the built tree holds exactly the input
indices, its stored colors are the palette's, and its radii bound the
near/far partitions. -/

lemma sortKey_nonneg (pal : List Color) (v : Color) (e : ℕ) : 0 ≤ sortKey pal v e := by
  unfold sortKey
  cases h : pal[e]? with
  | none => simp
  | some c => simp [diff_scalar_nonneg]

lemma sortKey_of_valid {pal : List Color} (v : Color) {e : ℕ} {c : Color}
    (h : pal[e]? = some c) : sortKey pal v e = diff_scalar v c := by
  unfold sortKey
  rw [h]
  rfl

lemma headD_cons_tail {l : List ℕ} (h : l ≠ []) : l.headD 0 :: l.tail = l := by
  cases l with
  | nil => exact absurd rfl h
  | cons a t => rfl

lemma cons_set_perm {α : Type} (t : List α) (j : ℕ) (a b : α) (h : t[j]? = some b) :
    (b :: t.set j a).Perm (a :: t) := by
  induction t generalizing j with
  | nil => simp at h
  | cons c t' ih =>
      cases j with
      | zero =>
          simp only [List.getElem?_cons_zero, Option.some_inj] at h
          subst h
          exact List.Perm.swap a c t'
      | succ j' =>
          simp only [List.getElem?_cons_succ] at h
          show (b :: c :: t'.set j' a).Perm (a :: c :: t')
          refine List.Perm.trans (List.Perm.swap c b _) ?_
          refine List.Perm.trans (List.Perm.cons c (ih j' h)) ?_
          exact List.Perm.swap a c t'

lemma swapToFront_perm (l : List ℕ) (k : ℕ) : (swapToFront l k).Perm l := by
  unfold swapToFront
  split
  · rename_i a b h0 hk
    cases l with
    | nil => simp at h0
    | cons x t =>
        have hax : a = x := by
          simp only [List.getElem?_cons_zero, Option.some_inj] at h0
          exact h0.symm
        subst hax
        cases k with
        | zero =>
            have hba : b = a := by
              simp only [List.getElem?_cons_zero, Option.some_inj] at hk
              exact hk.symm
            subst hba
            exact List.Perm.refl _
        | succ j =>
            have hkj : t[j]? = some b := by
              simpa using hk
            show (b :: t.set j a).Perm (a :: t)
            exact cons_set_perm t j a b hkj
  · exact List.Perm.refl _

/-- The rest-of-slice (after the most popular entry is swapped to the
front and removed) that `vp_create_node_scalar` sorts and partitions. -/
def vpRest (items : PalF) (idxs : List ℕ) : List ℕ :=
  (swapToFront idxs (lastArgmax (popKey items) idxs)).tail

/-- The palette index chosen as vantage by `vp_create_node_scalar`. -/
def vpRef (items : PalF) (idxs : List ℕ) : ℕ :=
  (swapToFront idxs (lastArgmax (popKey items) idxs)).headD 0

/-- The vantage color chosen by `vp_create_node_scalar`. -/
def vpVantage (items : PalF) (idxs : List ℕ) : Color :=
  (items.colors[vpRef items idxs]?).getD default

/-- The remaining indices sorted by distance to the vantage. -/
def vpSorted (items : PalF) (idxs : List ℕ) : List ℕ :=
  (vpRest items idxs).insertionSort fun i j =>
    sortKey items.colors (vpVantage items idxs) i ≤ sortKey items.colors (vpVantage items idxs) j

lemma vpCreate_succ (items : PalF) (fuel : ℕ) (idxs : List ℕ) (h1 : ¬ idxs.length ≤ 1) :
    vpCreateNodeFuel items (fuel + 1) idxs =
      if (vpSorted items idxs).length ≤ LEAF_MAX_SIZE then
        Node.leaf (vpVantage items idxs) (vpRef items idxs)
          ((vpSorted items idxs).map fun e =>
            match items.colors[e]? with
            | some c => (e, c)
            | none => (0, default))
      else
        Node.nodes (vpVantage items idxs) (vpRef items idxs)
          (sortKey items.colors (vpVantage items idxs)
            (((vpSorted items idxs).drop ((vpSorted items idxs).length / 2)).headD 0))
          (vpCreateNodeFuel items fuel
            ((vpSorted items idxs).take ((vpSorted items idxs).length / 2)))
          (vpCreateNodeFuel items fuel
            ((vpSorted items idxs).drop ((vpSorted items idxs).length / 2))) := by
  rw [vpCreateNodeFuel.eq_def]
  show (if idxs.length ≤ 1 then _ else _ : Node) = _
  rw [if_neg h1]
  rfl

lemma vpCreate_base (items : PalF) (fuel : ℕ) (idxs : List ℕ) (h1 : idxs.length ≤ 1) :
    vpCreateNodeFuel items fuel idxs =
      Node.leaf ((items.colors[idxs.headD 0]?).getD default) (idxs.headD 0) [] := by
  rw [vpCreateNodeFuel.eq_def]
  show (if idxs.length ≤ 1 then _ else _ : Node) = _
  exact if_pos h1

/-- Everything `vp_create_node_scalar` guarantees, proved by induction on
the fuel: the tree's slots are a permutation of the input indices, every
stored (index, color) pair is the palette's, and the radius bounds of
`TreeBounds` hold. -/
lemma vpCreate_spec (items : PalF) : ∀ (fuel : ℕ) (idxs : List ℕ),
    idxs ≠ [] → idxs.length ≤ fuel →
    (∀ e ∈ idxs, e < items.colors.length) →
    (slots (vpCreateNodeFuel items fuel idxs)).Perm idxs
      ∧ (∀ p ∈ nodeCands (vpCreateNodeFuel items fuel idxs), items.colors[p.1]? = some p.2)
      ∧ TreeBounds (vpCreateNodeFuel items fuel idxs) := by
  intro fuel
  induction fuel with
  | zero =>
      intro idxs hne hlen hval
      exact absurd (List.length_eq_zero.mp (Nat.le_zero.mp hlen)) hne
  | succ fuel ih =>
      intro idxs hne hlen hval
      by_cases h1 : idxs.length ≤ 1
      · -- a single index: a childless leaf node
        rw [vpCreate_base items (fuel + 1) idxs h1]
        obtain ⟨e, rfl⟩ : ∃ e, idxs = [e] := by
          cases idxs with
          | nil => exact absurd rfl hne
          | cons e t =>
              cases t with
              | nil => exact ⟨e, rfl⟩
              | cons f t' => simp at h1
        have he : e < items.colors.length := hval e (List.mem_cons_self e [])
        have hism : items.colors[e]? = some items.colors[e] := List.getElem?_eq_getElem he
        refine ⟨?_, ?_, ?_⟩
        · show ((e : ℕ) :: List.map Prod.fst []).Perm [e]
          exact List.Perm.refl _
        · intro p hp
          simp only [nodeCands, List.mem_singleton] at hp
          subst hp
          simp [hism]
        · exact TreeBounds.leaf _ _ _
      · rw [vpCreate_succ items fuel idxs h1]
        have hswp := swapToFront_perm idxs (lastArgmax (popKey items) idxs)
        have hlen2 : 2 ≤ idxs.length := by omega
        have hswne : swapToFront idxs (lastArgmax (popKey items) idxs) ≠ [] := by
          intro hcon
          have hle := hswp.length_eq
          rw [hcon] at hle
          simp only [List.length_nil] at hle
          omega
        have hct : vpRef items idxs :: vpRest items idxs
            = swapToFront idxs (lastArgmax (popKey items) idxs) := headD_cons_tail hswne
        have hperm2 : (vpRef items idxs :: vpRest items idxs).Perm idxs := by
          rw [hct]
          exact hswp
        have hsortperm : (vpSorted items idxs).Perm (vpRest items idxs) :=
          List.perm_insertionSort _ _
        have hvalid' : ∀ e ∈ vpSorted items idxs, e < items.colors.length := by
          intro e hee
          exact hval e (hperm2.mem_iff.mp (List.mem_cons_of_mem _ (hsortperm.mem_iff.mp hee)))
        have hrefmem : vpRef items idxs ∈ idxs :=
          hperm2.mem_iff.mp (List.mem_cons_self _ _)
        have hrefval : vpRef items idxs < items.colors.length := hval _ hrefmem
        have hrefsome : items.colors[vpRef items idxs]?
            = some items.colors[vpRef items idxs] := List.getElem?_eq_getElem hrefval
        have hvref : items.colors[vpRef items idxs]? = some (vpVantage items idxs) := by
          unfold vpVantage
          rw [hrefsome]
          rfl
        have hlsort : (vpSorted items idxs).length = idxs.length - 1 := by
          rw [hsortperm.length_eq]
          have h3 := hperm2.length_eq
          simp only [List.length_cons] at h3
          omega
        by_cases h6 : (vpSorted items idxs).length ≤ LEAF_MAX_SIZE
        · -- small remainder: inline leaf
          rw [if_pos h6]
          have hmapfst : ((vpSorted items idxs).map (fun e =>
              match items.colors[e]? with
              | some c => (e, c)
              | none => (0, (default : Color)))).map Prod.fst = vpSorted items idxs := by
            rw [List.map_map]
            have hcg : ∀ e ∈ vpSorted items idxs,
                (Prod.fst ∘ fun e => (match items.colors[e]? with
                  | some c => (e, c)
                  | none => (0, (default : Color)))) e = id e := by
              intro e hee
              have hs := List.getElem?_eq_getElem (hvalid' e hee)
              simp [Function.comp, hs]
            rw [List.map_congr_left hcg, List.map_id]
          refine ⟨?_, ?_, ?_⟩
          · show (vpRef items idxs :: ((vpSorted items idxs).map _).map Prod.fst).Perm idxs
            rw [hmapfst]
            exact (List.Perm.cons _ hsortperm).trans hperm2
          · intro p hp
            simp only [nodeCands, List.mem_cons] at hp
            rcases hp with rfl | hp
            · exact hvref
            · obtain ⟨e, hee, hfe⟩ := List.mem_map.mp hp
              have hs := List.getElem?_eq_getElem (hvalid' e hee)
              rw [hs] at hfe
              rw [← hfe]
              exact hs
          · exact TreeBounds.leaf _ _ _
        · -- large remainder: internal node with near/far subtrees
          rw [if_neg h6]
          have h7 : 7 ≤ (vpSorted items idxs).length := by
            simp only [LEAF_MAX_SIZE] at h6
            omega
          have hnearlen : ((vpSorted items idxs).take ((vpSorted items idxs).length / 2)).length
              = (vpSorted items idxs).length / 2 := by
            rw [List.length_take]
            omega
          have hfarlen : ((vpSorted items idxs).drop ((vpSorted items idxs).length / 2)).length
              = (vpSorted items idxs).length - (vpSorted items idxs).length / 2 := by
            rw [List.length_drop]
          have hnearne : (vpSorted items idxs).take ((vpSorted items idxs).length / 2) ≠ [] := by
            intro hcon
            rw [hcon] at hnearlen
            simp only [List.length_nil] at hnearlen
            omega
          have hfarne : (vpSorted items idxs).drop ((vpSorted items idxs).length / 2) ≠ [] := by
            intro hcon
            rw [hcon] at hfarlen
            simp only [List.length_nil] at hfarlen
            omega
          have hnearval : ∀ e ∈ (vpSorted items idxs).take ((vpSorted items idxs).length / 2),
              e < items.colors.length :=
            fun e hee => hvalid' e (List.mem_of_mem_take hee)
          have hfarval : ∀ e ∈ (vpSorted items idxs).drop ((vpSorted items idxs).length / 2),
              e < items.colors.length :=
            fun e hee => hvalid' e (List.mem_of_mem_drop hee)
          obtain ⟨Pn, Vn, Bn⟩ := ih ((vpSorted items idxs).take ((vpSorted items idxs).length / 2))
            hnearne (by rw [hnearlen]; omega) hnearval
          obtain ⟨Pf, Vf, Bf⟩ := ih ((vpSorted items idxs).drop ((vpSorted items idxs).length / 2))
            hfarne (by rw [hfarlen]; omega) hfarval
          haveI htot : IsTotal ℕ (fun i j => sortKey items.colors (vpVantage items idxs) i
              ≤ sortKey items.colors (vpVantage items idxs) j) := ⟨fun a b => le_total _ _⟩
          haveI htrans : IsTrans ℕ (fun i j => sortKey items.colors (vpVantage items idxs) i
              ≤ sortKey items.colors (vpVantage items idxs) j) :=
            ⟨fun a b c hab hbc => le_trans hab hbc⟩
          have hsorted : List.Sorted (fun i j => sortKey items.colors (vpVantage items idxs) i
              ≤ sortKey items.colors (vpVantage items idxs) j) (vpSorted items idxs) :=
            List.sorted_insertionSort _ _
          have hpw : List.Pairwise (fun i j => sortKey items.colors (vpVantage items idxs) i
                ≤ sortKey items.colors (vpVantage items idxs) j)
              ((vpSorted items idxs).take ((vpSorted items idxs).length / 2)
                ++ (vpSorted items idxs).drop ((vpSorted items idxs).length / 2)) := by
            rw [List.take_append_drop]
            exact hsorted
          have hcross := (List.pairwise_append.mp hpw).2.2
          have hfarpw := (List.pairwise_append.mp hpw).2.1
          have hf0mem : ((vpSorted items idxs).drop ((vpSorted items idxs).length / 2)).headD 0
              ∈ (vpSorted items idxs).drop ((vpSorted items idxs).length / 2) := by
            rw [← headD_cons_tail hfarne]
            exact List.mem_cons_self _ _
          have happ : ((vpSorted items idxs).take ((vpSorted items idxs).length / 2)
              ++ (vpSorted items idxs).drop ((vpSorted items idxs).length / 2)).Perm
                (vpSorted items idxs) := by
            rw [List.take_append_drop]
          refine ⟨?_, ?_, ?_⟩
          · show (vpRef items idxs :: (slots _ ++ slots _)).Perm idxs
            refine List.Perm.trans (List.Perm.cons _ (((Pn.append Pf).trans happ).trans
              hsortperm)) hperm2
          · intro p hp
            simp only [nodeCands, List.mem_cons, List.mem_append] at hp
            rcases hp with rfl | hp | hp
            · exact hvref
            · exact Vn p hp
            · exact Vf p hp
          · refine TreeBounds.nodes _ _ _ _ _ (sortKey_nonneg _ _ _) ?_ ?_ ?_ Bn Bf
            · intro p hp
              have hp1 : p.1 ∈ (vpSorted items idxs).take ((vpSorted items idxs).length / 2) := by
                refine Pn.mem_iff.mp ?_
                rw [slots_eq_map_cands]
                exact List.mem_map.mpr ⟨p, hp, rfl⟩
              have hkey := hcross p.1 hp1 _ hf0mem
              rwa [sortKey_of_valid (vpVantage items idxs) (Vn p hp)] at hkey
            · intro p hp
              have hp1 : p.1 ∈ (vpSorted items idxs).drop ((vpSorted items idxs).length / 2) := by
                refine Pf.mem_iff.mp ?_
                rw [slots_eq_map_cands]
                exact List.mem_map.mpr ⟨p, hp, rfl⟩
              have hkey : sortKey items.colors (vpVantage items idxs)
                  (((vpSorted items idxs).drop ((vpSorted items idxs).length / 2)).headD 0)
                  ≤ sortKey items.colors (vpVantage items idxs) p.1 := by
                rw [← headD_cons_tail hfarne] at hp1 hfarpw
                rcases List.mem_cons.mp hp1 with heq | hmem
                · rw [heq]
                · exact (List.pairwise_cons.mp hfarpw).1 p.1 hmem
              rwa [sortKey_of_valid (vpVantage items idxs) (Vf p hp)] at hkey
            · -- the radius is achieved by the head of the far partition
              have hf0slot : ((vpSorted items idxs).drop
                    ((vpSorted items idxs).length / 2)).headD 0
                  ∈ slots (vpCreateNodeFuel items fuel
                    ((vpSorted items idxs).drop ((vpSorted items idxs).length / 2))) :=
                Pf.mem_iff.mpr hf0mem
              rw [slots_eq_map_cands] at hf0slot
              obtain ⟨p, hp, hp1⟩ := List.mem_map.mp hf0slot
              refine ⟨p, hp, ?_⟩
              rw [← sortKey_of_valid (vpVantage items idxs) (Vf p hp), hp1]

/-! ### Facts about `new_scalar` and the assembled index. -/

lemma new_scalar_err_iff (pal : PalF) :
    new_scalar pal = Except.error Error.unsupported
      ↔ (pal.colors.length = 0 ∨ PalIndexMAX + 1 < pal.colors.length) := by
  unfold new_scalar
  split
  · rename_i h
    simp only [true_iff]
    right
    omega
  · rename_i h
    split
    · rename_i h2
      simp only [List.isEmpty_iff, List.range_eq_nil] at h2
      simp only [true_iff]
      left
      exact h2
    · rename_i h2
      simp only [List.isEmpty_iff, List.range_eq_nil] at h2
      constructor
      · intro hcon
        exact absurd hcon (by simp)
      · intro hcon
        omega

lemma new_scalar_ok_eq {pal : PalF} {n : Nearest} (h : new_scalar pal = Except.ok n) :
    n = mkNearestScalar pal := by
  unfold new_scalar at h
  split at h
  · exact absurd h (by simp)
  · split at h
    · exact absurd h (by simp)
    · exact (Except.ok.injEq _ _ ▸ h).symm

lemma new_scalar_ok_len {pal : PalF} {n : Nearest} (h : new_scalar pal = Except.ok n) :
    1 ≤ pal.colors.length ∧ pal.colors.length ≤ PalIndexMAX + 1 := by
  unfold new_scalar at h
  split at h
  · exact absurd h (by simp)
  · rename_i h1
    split at h
    · exact absurd h (by simp)
    · rename_i h2
      simp only [List.isEmpty_iff, List.range_eq_nil] at h2
      omega

lemma new_scalar_ok_of_len (pal : PalF) (h1 : 1 ≤ pal.colors.length)
    (h2 : pal.colors.length ≤ PalIndexMAX + 1) :
    new_scalar pal = Except.ok (mkNearestScalar pal) := by
  unfold new_scalar
  rw [if_neg (by omega)]
  rw [if_neg (by simp only [List.isEmpty_iff, List.range_eq_nil]; omega)]

lemma mkNearest_palette (pal : PalF) : (mkNearestScalar pal).palette = pal := rfl

lemma mkNearest_root (pal : PalF) :
    (mkNearestScalar pal).root
      = vpCreateNodeFuel pal (List.range pal.colors.length).length
          (List.range pal.colors.length) := rfl

lemma mkNearest_nodc_getD (pal : PalF) (i : ℕ) (hi : i < pal.colors.length)
    (hle : pal.colors.length ≤ MAX_COLORS) :
    (mkNearestScalar pal).nearest_other_color_dist.getD i 0
      = (warmUp (mkNearestScalar pal).root pal i).distance_squared.untop' 0 / 4 := by
  show ((List.range MAX_COLORS).map fun j =>
      if j < pal.colors.length then
        (warmUp (mkNearestScalar pal).root pal j).distance_squared.untop' 0 / 4
      else 0).getD i 0 = _
  rw [List.getD_eq_getElem?_getD, List.getElem?_map,
    List.getElem?_range (by omega : i < MAX_COLORS)]
  simp only [Option.map_some', Option.getD_some]
  rw [if_pos hi]

/-- The construction invariants, transported to the root of the built
index. -/
lemma root_spec (pal : PalF) (hlen : 1 ≤ pal.colors.length) :
    (slots (mkNearestScalar pal).root).Perm (List.range pal.colors.length)
      ∧ (∀ p ∈ nodeCands (mkNearestScalar pal).root, pal.colors[p.1]? = some p.2)
      ∧ TreeBounds (mkNearestScalar pal).root := by
  rw [mkNearest_root]
  exact vpCreate_spec pal (List.range pal.colors.length).length (List.range pal.colors.length)
    (by simp only [ne_eq, List.range_eq_nil]; omega)
    (le_refl _)
    (fun e he => List.mem_range.mp he)

/-- Every valid palette index appears among the tree's candidates with
its palette color. -/
lemma cands_cover (pal : PalF) (hlen : 1 ≤ pal.colors.length) (j : ℕ)
    (hj : j < pal.colors.length) :
    ∃ c, (j, c) ∈ nodeCands (mkNearestScalar pal).root ∧ pal.colors[j]? = some c := by
  obtain ⟨Proot, Vroot, _⟩ := root_spec pal hlen
  have hjmem : j ∈ slots (mkNearestScalar pal).root :=
    Proot.mem_iff.mpr (List.mem_range.mpr hj)
  rw [slots_eq_map_cands] at hjmem
  obtain ⟨p, hp, hp1⟩ := List.mem_map.mp hjmem
  refine ⟨p.2, ?_, ?_⟩
  · rw [← hp1]
    exact hp
  · rw [← hp1]
    exact Vroot p hp

/-- The brute-force minimum of the claims: the least squared distance
from the query to any palette entry (`⊤` for an empty palette). -/
def bruteForceMin (pal : PalF) (q : Color) : WithTop ℚ :=
  (pal.colors.map fun c => ((diff_scalar q c : ℚ) : WithTop ℚ)).foldr min ⊤

lemma foldr_min_le {l : List (WithTop ℚ)} {x : WithTop ℚ} (h : x ∈ l) :
    l.foldr min ⊤ ≤ x := by
  induction l with
  | nil => cases h
  | cons y ys ih =>
      rw [List.foldr_cons]
      rcases List.mem_cons.mp h with rfl | hmem
      · exact min_le_left _ _
      · exact le_trans (min_le_right _ _) (ih hmem)

lemma le_foldr_min {l : List (WithTop ℚ)} {y : WithTop ℚ} (h : ∀ x ∈ l, y ≤ x) :
    y ≤ l.foldr min ⊤ := by
  induction l with
  | nil => exact le_top
  | cons z zs ih =>
      rw [List.foldr_cons]
      exact le_min (h z (List.mem_cons_self _ _)) (ih fun x hx => h x (List.mem_cons_of_mem _ hx))

lemma bruteForceMin_eq {pal : PalF} {q : Color} {r : WithTop ℚ}
    (hach : ∃ c, c ∈ pal.colors ∧ r = ((diff_scalar q c : ℚ) : WithTop ℚ))
    (hle : ∀ c ∈ pal.colors, r ≤ ((diff_scalar q c : ℚ) : WithTop ℚ)) :
    r = bruteForceMin pal q := by
  obtain ⟨c, hc, hr⟩ := hach
  refine le_antisymm ?_ ?_
  · exact le_foldr_min fun x hx => by
      obtain ⟨c', hc', rfl⟩ := List.mem_map.mp hx
      exact hle c' hc'
  · rw [hr]
    exact foldr_min_le (List.mem_map.mpr ⟨c, hc, rfl⟩)

lemma f32MAX_nonneg : (0 : ℚ) ≤ f32MAX := by
  unfold f32MAX
  norm_num

lemma warmUp_le_sentinel (pal : PalF) (i : ℕ) :
    (warmUp (mkNearestScalar pal).root pal i).distance_squared
      ≤ ((f32MAX : ℚ) : WithTop ℚ) :=
  search_mono _ _ _

lemma warmUp_nonneg (pal : PalF) (i : ℕ) :
    0 ≤ (warmUp (mkNearestScalar pal).root pal i).distance_squared :=
  search_nonneg _ _ _
    (by show (0 : WithTop ℚ) ≤ ((f32MAX : ℚ) : WithTop ℚ); exact_mod_cast f32MAX_nonneg)

lemma warmUp_ne_top (pal : PalF) (i : ℕ) :
    (warmUp (mkNearestScalar pal).root pal i).distance_squared ≠ ⊤ := by
  intro h
  have hle := warmUp_le_sentinel pal i
  rw [h] at hle
  exact WithTop.not_top_le_coe _ hle

/-- Completeness of the warm-up pass: the recorded squared distance is at
most the distance from any other palette entry to entry `i`'s color. -/
lemma warmUp_complete (pal : PalF) (hlen : 1 ≤ pal.colors.length) (i j : ℕ) (c : Color)
    (hj : pal.colors[j]? = some c) (hne : j ≠ i) :
    (warmUp (mkNearestScalar pal).root pal i).distance_squared
      ≤ ((diff_scalar c ((pal.colors[i]?).getD default) : ℚ) : WithTop ℚ) := by
  obtain ⟨_, Vroot, Broot⟩ := root_spec pal hlen
  have hjlen : j < pal.colors.length := by
    obtain ⟨h, _⟩ := List.getElem?_eq_some_iff.mp hj
    exact h
  obtain ⟨c', hcmem, hc'⟩ := cands_cover pal hlen j hjlen
  have hcc : c' = c := by
    rw [hj] at hc'
    exact (Option.some_inj.mp hc').symm
  rw [hcc] at hcmem
  show (vp_search_node_scalar (mkNearestScalar pal).root ((pal.colors[i]?).getD default)
      ⟨((f32MAX : ℚ) : WithTop ℚ), 0, some i⟩).distance_squared
    ≤ ((diff_scalar c ((pal.colors[i]?).getD default) : ℚ) : WithTop ℚ)
  exact search_complete _ _ (j, c)
    ⟨((f32MAX : ℚ) : WithTop ℚ), 0, some i⟩ Broot hcmem
    (fun hcon => hne (Option.some_inj.mp hcon).symm)
    (by show (0 : WithTop ℚ) ≤ ((f32MAX : ℚ) : WithTop ℚ); exact_mod_cast f32MAX_nonneg)

lemma sqrt_four : Real.sqrt 4 = 2 := by
  rw [show (4 : ℝ) = 2 ^ 2 by norm_num, Real.sqrt_sq (by norm_num : (0:ℝ) ≤ 2)]

/-- Soundness of the fast-path short-circuit: if the direct distance to
the hinted entry is below the quartered nearest-other-color cache, the
hinted entry is the global minimum. -/
lemma fast_path_bound (pal : PalF) (hlen : 1 ≤ pal.colors.length)
    (hle : pal.colors.length ≤ MAX_COLORS) (hint : ℕ) (pal_px : Color)
    (hh : pal.colors[hint]? = some pal_px) (q : Color)
    (hfire : diff_scalar q pal_px
      < (mkNearestScalar pal).nearest_other_color_dist.getD hint 0)
    (c : Color) (hc : c ∈ pal.colors) :
    diff_scalar q pal_px ≤ diff_scalar q c := by
  obtain ⟨j, hj⟩ := List.mem_iff_getElem?.mp hc
  by_cases hji : j = hint
  · subst hji
    rw [hj] at hh
    rw [Option.some_inj.mp hh]
  · have hhintlen : hint < pal.colors.length := by
      obtain ⟨h, _⟩ := List.getElem?_eq_some_iff.mp hh
      exact h
    have hgetD : (pal.colors[hint]?).getD default = pal_px := by
      rw [hh, Option.getD_some]
    obtain ⟨ω, hω⟩ := WithTop.ne_top_iff_exists.mp (warmUp_ne_top pal hint)
    have hω0 : (0 : ℚ) ≤ ω := by
      have := warmUp_nonneg pal hint
      rw [← hω] at this
      exact_mod_cast this
    have huntop : (warmUp (mkNearestScalar pal).root pal hint).distance_squared.untop' 0 = ω := by
      rw [← hω]
      rfl
    rw [mkNearest_nodc_getD pal hint hhintlen hle, huntop] at hfire
    have hcompl : ω ≤ diff_scalar c pal_px := by
      have := warmUp_complete pal hlen hint j c hj hji
      rw [hgetD, ← hω] at this
      exact_mod_cast this
    -- real-valued assembly of the triangle argument
    have hg0 : (0 : ℚ) ≤ diff_scalar q pal_px := diff_scalar_nonneg _ _
    have hsg : Real.sqrt ((diff_scalar q pal_px : ℚ) : ℝ)
        < Real.sqrt ((ω : ℚ) : ℝ) / 2 := by
      have h1 : Real.sqrt ((diff_scalar q pal_px : ℚ) : ℝ)
          < Real.sqrt (((ω / 4 : ℚ)) : ℝ) :=
        Real.sqrt_lt_sqrt (by exact_mod_cast hg0) (by exact_mod_cast hfire)
      have h2 : (((ω / 4 : ℚ)) : ℝ) = ((ω : ℚ) : ℝ) / 4 := by push_cast; ring
      rw [h2, Real.sqrt_div (by exact_mod_cast hω0), sqrt_four] at h1
      exact h1
    have hsm : Real.sqrt ((ω : ℚ) : ℝ) ≤ Real.sqrt ((diff_scalar c pal_px : ℚ) : ℝ) :=
      sqrt_mono_cast hcompl
    have htri : Real.sqrt ((diff_scalar c pal_px : ℚ) : ℝ)
        ≤ Real.sqrt ((diff_scalar c q : ℚ) : ℝ)
          + Real.sqrt ((diff_scalar q pal_px : ℚ) : ℝ) := diff_scalar_triangle c q pal_px
    have hfin : Real.sqrt ((diff_scalar q pal_px : ℚ) : ℝ)
        < Real.sqrt ((diff_scalar c q : ℚ) : ℝ) := by linarith
    have := le_of_sqrt_lt hfin
    rwa [diff_scalar_comm c q] at this

lemma search_scalar_fire (n : Nearest) (px : Color) (hint : ℕ) (pal_px : Color)
    (hh : n.palette.colors[hint]? = some pal_px)
    (hfire : diff_scalar px pal_px < n.nearest_other_color_dist.getD hint 0) :
    n.search_scalar px hint = (hint, ((diff_scalar px pal_px : ℚ) : WithTop ℚ)) := by
  unfold Nearest.search_scalar
  split
  · rename_i pal_px' hh'
    rw [hh] at hh'
    have := Option.some_inj.mp hh'
    subst this
    rw [if_pos hfire]
  · rename_i hh'
    rw [hh] at hh'
    cases hh'

lemma search_scalar_guess (n : Nearest) (px : Color) (hint : ℕ) (pal_px : Color)
    (hh : n.palette.colors[hint]? = some pal_px)
    (hnofire : ¬ diff_scalar px pal_px < n.nearest_other_color_dist.getD hint 0) :
    n.search_scalar px hint =
      ((vp_search_node_scalar n.root px
          ⟨((diff_scalar px pal_px : ℚ) : WithTop ℚ), hint, none⟩).idx,
        (vp_search_node_scalar n.root px
          ⟨((diff_scalar px pal_px : ℚ) : WithTop ℚ), hint, none⟩).distance_squared) := by
  unfold Nearest.search_scalar
  split
  · rename_i pal_px' hh'
    rw [hh] at hh'
    have := Option.some_inj.mp hh'
    subst this
    rw [if_neg hnofire]
  · rename_i hh'
    rw [hh] at hh'
    cases hh'

lemma search_scalar_oob (n : Nearest) (px : Color) (hint : ℕ)
    (hh : n.palette.colors[hint]? = none) :
    n.search_scalar px hint =
      ((vp_search_node_scalar n.root px ⟨⊤, 0, none⟩).idx,
        (vp_search_node_scalar n.root px ⟨⊤, 0, none⟩).distance_squared) := by
  unfold Nearest.search_scalar
  split
  · rename_i pal_px' hh'
    rw [hh] at hh'
    cases hh'
  · rfl

/-- The master correctness statement for the scalar search: for any built
index and any hint, the returned index is a valid palette index achieving
the returned squared distance, and that distance is the brute-force
minimum over all palette entries. -/
lemma search_scalar_spec (pal : PalF) (n : Nearest) (hok : new_scalar pal = Except.ok n)
    (q : Color) (hint : ℕ) :
    (∃ c, pal.colors[(n.search_scalar q hint).1]? = some c
        ∧ (n.search_scalar q hint).2 = ((diff_scalar q c : ℚ) : WithTop ℚ))
      ∧ (n.search_scalar q hint).2 = bruteForceMin pal q := by
  obtain ⟨hlen, hle⟩ := new_scalar_ok_len hok
  have hneq := new_scalar_ok_eq hok
  subst hneq
  obtain ⟨Proot, Vroot, Broot⟩ := root_spec pal hlen
  have hcov := cands_cover pal hlen
  -- generic facts applying to the two tree-searching paths
  have complete_all : ∀ (b : Visitor), b.exclude = none → 0 ≤ b.distance_squared →
      ∀ c ∈ pal.colors,
        (vp_search_node_scalar (mkNearestScalar pal).root q b).distance_squared
          ≤ ((diff_scalar q c : ℚ) : WithTop ℚ) := by
    intro b hexb hb0 c hc
    obtain ⟨j, hj⟩ := List.mem_iff_getElem?.mp hc
    have hjlen : j < pal.colors.length := (List.getElem?_eq_some_iff.mp hj).1
    obtain ⟨c', hcmem, hc'⟩ := hcov j hjlen
    have hcc : c' = c := by
      rw [hj] at hc'
      exact (Option.some_inj.mp hc').symm
    rw [hcc] at hcmem
    have := search_complete (mkNearestScalar pal).root q (j, c) b Broot hcmem
      (by rw [hexb]; simp) hb0
    rwa [diff_scalar_comm c q] at this
  have achieved : ∀ (b : Visitor), b.exclude = none →
      (∃ c, pal.colors[b.idx]? = some c
        ∧ b.distance_squared = ((diff_scalar q c : ℚ) : WithTop ℚ)) →
      ∃ c, pal.colors[(vp_search_node_scalar (mkNearestScalar pal).root q b).idx]? = some c
        ∧ (vp_search_node_scalar (mkNearestScalar pal).root q b).distance_squared
            = ((diff_scalar q c : ℚ) : WithTop ℚ) := by
    intro b hexb hbinit
    rcases search_achieves (mkNearestScalar pal).root q b with heq | ⟨p, hp, hd, hi, _⟩
    · rw [heq]
      exact hbinit
    · refine ⟨p.2, ?_, ?_⟩
      · rw [hi]
        exact Vroot p hp
      · rw [hd, diff_scalar_comm p.2 q]
  cases hh : pal.colors[hint]? with
  | some pal_px =>
      by_cases hfire : diff_scalar q pal_px
          < (mkNearestScalar pal).nearest_other_color_dist.getD hint 0
      · -- fast path fires: the hinted entry is the minimum
        rw [search_scalar_fire (mkNearestScalar pal) q hint pal_px hh hfire]
        have hbound := fast_path_bound pal hlen (by
            show pal.colors.length ≤ MAX_COLORS
            simpa [PalIndexMAX, MAX_COLORS] using hle) hint pal_px hh q hfire
        refine ⟨⟨pal_px, hh, rfl⟩, ?_⟩
        refine bruteForceMin_eq ⟨pal_px, List.getElem?_mem hh, rfl⟩ ?_
        intro c hc
        show ((diff_scalar q pal_px : ℚ) : WithTop ℚ) ≤ ((diff_scalar q c : ℚ) : WithTop ℚ)
        exact_mod_cast hbound c hc
      · -- general path with a valid hint
        rw [search_scalar_guess (mkNearestScalar pal) q hint pal_px hh hfire]
        have hg0 : (0 : WithTop ℚ) ≤ ((diff_scalar q pal_px : ℚ) : WithTop ℚ) := by
          exact_mod_cast diff_scalar_nonneg q pal_px
        have hach := achieved ⟨((diff_scalar q pal_px : ℚ) : WithTop ℚ), hint, none⟩ rfl
          ⟨pal_px, hh, rfl⟩
        have hcom := complete_all ⟨((diff_scalar q pal_px : ℚ) : WithTop ℚ), hint, none⟩ rfl hg0
        refine ⟨hach, ?_⟩
        obtain ⟨c, hc1, hc2⟩ := hach
        exact bruteForceMin_eq ⟨c, List.getElem?_mem hc1, hc2⟩ hcom
  | none =>
      rw [search_scalar_oob (mkNearestScalar pal) q hint hh]
      have hcom := complete_all ⟨⊤, 0, none⟩ rfl le_top
      -- the top-sentinel initial visitor cannot be returned unchanged,
      -- because the palette is nonempty and the search is complete
      have hach : ∃ c, pal.colors[(vp_search_node_scalar (mkNearestScalar pal).root q
            ⟨⊤, 0, none⟩).idx]? = some c
          ∧ (vp_search_node_scalar (mkNearestScalar pal).root q
              ⟨⊤, 0, none⟩).distance_squared = ((diff_scalar q c : ℚ) : WithTop ℚ) := by
        rcases search_achieves (mkNearestScalar pal).root q ⟨⊤, 0, none⟩ with
          heq | ⟨p, hp, hd, hi, _⟩
        · exfalso
          obtain ⟨c0, hc0⟩ : ∃ c0, pal.colors[0]? = some c0 := by
            have h0 : 0 < pal.colors.length := by omega
            exact ⟨pal.colors[0], List.getElem?_eq_getElem h0⟩
          have := hcom c0 (List.getElem?_mem hc0)
          rw [heq] at this
          exact WithTop.not_top_le_coe _ this
        · refine ⟨p.2, ?_, ?_⟩
          · rw [hi]
            exact Vroot p hp
          · rw [hd, diff_scalar_comm p.2 q]
      refine ⟨hach, ?_⟩
      obtain ⟨c, hc1, hc2⟩ := hach
      exact bruteForceMin_eq ⟨c, List.getElem?_mem hc1, hc2⟩ hcom

/-! ### Normalized colors and the warm-up cache's exact value. -/

/-- A color in the normalized `[0,1]` representation of the data model. -/
def In01 (c : Color) : Prop :=
  0 ≤ c.a ∧ c.a ≤ 1 ∧ 0 ≤ c.r ∧ c.r ≤ 1 ∧ 0 ≤ c.g ∧ c.g ≤ 1 ∧ 0 ≤ c.b ∧ c.b ≤ 1

instance (c : Color) : Decidable (In01 c) := by
  unfold In01
  infer_instance

lemma diff_scalar_le_twelve {a b : Color} (ha : In01 a) (hb : In01 b) :
    diff_scalar a b ≤ 12 := by
  obtain ⟨ha1, ha2, ha3, ha4, ha5, ha6, ha7, ha8⟩ := ha
  obtain ⟨hb1, hb2, hb3, hb4, hb5, hb6, hb7, hb8⟩ := hb
  rw [diff_scalar_eq_chanTerms]
  have key : ∀ x d : ℚ, -1 ≤ x → x ≤ 1 → -1 ≤ d → d ≤ 1 → chanTerm x d ≤ 4 := by
    intro x d hx1 hx2 hd1 hd2
    unfold chanTerm
    apply max_le
    · nlinarith
    · nlinarith
  have h1 := key (a.r - b.r) (b.a - a.a) (by linarith) (by linarith) (by linarith) (by linarith)
  have h2 := key (a.g - b.g) (b.a - a.a) (by linarith) (by linarith) (by linarith) (by linarith)
  have h3 := key (a.b - b.b) (b.a - a.a) (by linarith) (by linarith) (by linarith) (by linarith)
  linarith

lemma twelve_lt_f32MAX : (12 : ℚ) < f32MAX := by
  unfold f32MAX
  norm_num

/-- The brute-force nearest-other-color squared distance for entry `i`:
the least squared distance from entry `i`'s color to any other entry. -/
def bruteMinExcl (pal : PalF) (i : ℕ) : WithTop ℚ :=
  (((List.range pal.colors.length).filter fun j => j ≠ i).map fun j =>
    ((diff_scalar ((pal.colors[i]?).getD default) ((pal.colors[j]?).getD default) : ℚ)
      : WithTop ℚ)).foldr min ⊤

/-- For a normalized palette with at least two entries, the warm-up pass
computes exactly the nearest-other-color squared distance and never
reports the excluded entry itself. -/
lemma warmUp_eq_min (pal : PalF) (hnorm : ∀ c ∈ pal.colors, In01 c)
    (h2 : 2 ≤ pal.colors.length) (i : ℕ) (hi : i < pal.colors.length) :
    (warmUp (mkNearestScalar pal).root pal i).distance_squared = bruteMinExcl pal i
      ∧ (warmUp (mkNearestScalar pal).root pal i).idx ≠ i := by
  have hlen : 1 ≤ pal.colors.length := by omega
  obtain ⟨Proot, Vroot, Broot⟩ := root_spec pal hlen
  have hci : pal.colors[i]? = some pal.colors[i] := List.getElem?_eq_getElem hi
  have hgetDi : (pal.colors[i]?).getD default = pal.colors[i] := by
    rw [hci]
    rfl
  -- upper bound: completeness against every other entry
  have hub : ∀ x ∈ ((List.range pal.colors.length).filter fun j => j ≠ i).map fun j =>
      ((diff_scalar ((pal.colors[i]?).getD default) ((pal.colors[j]?).getD default) : ℚ)
        : WithTop ℚ),
      (warmUp (mkNearestScalar pal).root pal i).distance_squared ≤ x := by
    intro x hx
    obtain ⟨j, hjmem, rfl⟩ := List.mem_map.mp hx
    obtain ⟨hjr, hjne⟩ := List.mem_filter.mp hjmem
    have hjlen : j < pal.colors.length := List.mem_range.mp hjr
    have hcj : pal.colors[j]? = some pal.colors[j] := List.getElem?_eq_getElem hjlen
    have hcomp := warmUp_complete pal hlen i j pal.colors[j] hcj
      (by simpa using hjne)
    rw [hcj]
    show _ ≤ ((diff_scalar ((pal.colors[i]?).getD default) ((some pal.colors[j]).getD default)
      : ℚ) : WithTop ℚ)
    rw [Option.getD_some, hgetDi, diff_scalar_comm]
    rw [hgetDi] at hcomp
    exact hcomp
  -- the search does not return the sentinel: some other entry is close
  rcases search_achieves (mkNearestScalar pal).root
      ((pal.colors[i]?).getD default) ⟨((f32MAX : ℚ) : WithTop ℚ), 0, some i⟩ with
    heq | ⟨p, hp, hd, hidx, hx⟩
  · exfalso
    obtain ⟨j, hjlen, hjne⟩ : ∃ j, j < pal.colors.length ∧ j ≠ i := by
      rcases Nat.eq_zero_or_pos i with h0 | h0
      · exact ⟨1, by omega, by omega⟩
      · exact ⟨0, by omega, by omega⟩
    have hcj : pal.colors[j]? = some pal.colors[j] := List.getElem?_eq_getElem hjlen
    have hcomp := warmUp_complete pal hlen i j pal.colors[j] hcj hjne
    have hwtop : (warmUp (mkNearestScalar pal).root pal i).distance_squared
        = ((f32MAX : ℚ) : WithTop ℚ) := by
      show (vp_search_node_scalar (mkNearestScalar pal).root
          ((pal.colors[i]?).getD default)
          ⟨((f32MAX : ℚ) : WithTop ℚ), 0, some i⟩).distance_squared = _
      rw [heq]
    rw [hwtop] at hcomp
    have hle12 : diff_scalar pal.colors[j] ((pal.colors[i]?).getD default) ≤ 12 := by
      rw [hgetDi]
      exact diff_scalar_le_twelve (hnorm _ (List.getElem?_mem hcj))
        (hnorm _ (List.getElem?_mem hci))
    have hcast : (f32MAX : ℚ) ≤ diff_scalar pal.colors[j] ((pal.colors[i]?).getD default) := by
      exact_mod_cast hcomp
    linarith [twelve_lt_f32MAX]
  · -- the returned candidate is a genuine other entry
    have hx' : p.1 ≠ i := fun hcon => hx (by rw [hcon])
    have hpv := Vroot p hp
    have hp1len : p.1 < pal.colors.length := (List.getElem?_eq_some_iff.mp hpv).1
    constructor
    · refine le_antisymm (le_foldr_min hub) ?_
      have hmem : ((diff_scalar ((pal.colors[i]?).getD default)
            ((pal.colors[p.1]?).getD default) : ℚ) : WithTop ℚ)
          ∈ ((List.range pal.colors.length).filter fun j => j ≠ i).map fun j =>
            ((diff_scalar ((pal.colors[i]?).getD default) ((pal.colors[j]?).getD default) : ℚ)
              : WithTop ℚ) :=
        List.mem_map.mpr ⟨p.1, List.mem_filter.mpr ⟨List.mem_range.mpr hp1len, by simpa using hx'⟩,
          rfl⟩
      refine le_trans (foldr_min_le hmem) ?_
      have hgd : (pal.colors[p.1]?).getD default = p.2 := by
        rw [hpv]
        rfl
      rw [hgd]
      show ((diff_scalar ((pal.colors[i]?).getD default) p.2 : ℚ) : WithTop ℚ)
          ≤ (warmUp (mkNearestScalar pal).root pal i).distance_squared
      have hwd : (warmUp (mkNearestScalar pal).root pal i).distance_squared
          = ((diff_scalar p.2 ((pal.colors[i]?).getD default) : ℚ) : WithTop ℚ) := hd
      rw [hwd, diff_scalar_comm]
    · show (warmUp (mkNearestScalar pal).root pal i).idx ≠ i
      have : (warmUp (mkNearestScalar pal).root pal i).idx = p.1 := hidx
      rw [this]
      exact hx'

/-- Radius invariants for every internal node of the built tree, stated
over palette colors: near-subtree slots are within the squared radius,
far-subtree slots are at distance at least the squared radius, and the
squared radius is achieved by some far-subtree slot (the first element of
the far partition). -/
lemma internals_bounds (pal : PalF) : ∀ n : Node, TreeBounds n →
    (∀ p ∈ nodeCands n, pal.colors[p.1]? = some p.2) →
    ∀ x ∈ internals n,
      (∀ e ∈ slots x.near, ∃ c, pal.colors[e]? = some c
        ∧ diff_scalar x.vantage_point c ≤ x.radius_squared)
      ∧ (∀ e ∈ slots x.far, ∃ c, pal.colors[e]? = some c
        ∧ x.radius_squared ≤ diff_scalar x.vantage_point c)
      ∧ (∃ e ∈ slots x.far, ∃ c, pal.colors[e]? = some c
        ∧ diff_scalar x.vantage_point c = x.radius_squared) := by
  intro n
  induction n with
  | leaf v i entries =>
      intro _ _ x hx
      cases hx
  | nodes v i R near far ihn ihf =>
      intro hB hV x hx
      cases hB with
      | nodes _ _ _ _ _ hR hnear hfar hfar0 hn hf =>
      have hVn : ∀ p ∈ nodeCands near, pal.colors[p.1]? = some p.2 :=
        fun p hp => hV p (List.mem_cons_of_mem _ (List.mem_append_left _ hp))
      have hVf : ∀ p ∈ nodeCands far, pal.colors[p.1]? = some p.2 :=
        fun p hp => hV p (List.mem_cons_of_mem _ (List.mem_append_right _ hp))
      simp only [internals, List.mem_cons, List.mem_append] at hx
      rcases hx with rfl | hx | hx
      · refine ⟨?_, ?_, ?_⟩
        · intro e he
          rw [slots_eq_map_cands] at he
          obtain ⟨p, hp, hp1⟩ := List.mem_map.mp he
          refine ⟨p.2, ?_, ?_⟩
          · rw [← hp1]
            exact hVn p hp
          · exact hnear p hp
        · intro e he
          rw [slots_eq_map_cands] at he
          obtain ⟨p, hp, hp1⟩ := List.mem_map.mp he
          refine ⟨p.2, ?_, ?_⟩
          · rw [← hp1]
            exact hVf p hp
          · exact hfar p hp
        · obtain ⟨p, hp, hp1⟩ := hfar0
          refine ⟨p.1, ?_, p.2, hVf p hp, hp1⟩
          rw [slots_eq_map_cands]
          exact List.mem_map.mpr ⟨p, hp, rfl⟩
      · exact ihn hn hVn x hx
      · exact ihf hf hVf x hx

/-! ### Concrete palettes used as witnesses. -/

/-- A one-entry palette (opaque black). -/
def onePal : PalF := { colors := [⟨1, 0, 0, 0⟩], pops := [1] }

/-- A two-entry normalized palette (opaque black and opaque red). -/
def twoPal : PalF := { colors := [⟨1, 0, 0, 0⟩, ⟨1, 1, 0, 0⟩], pops := [1, 0] }

/-- An eight-entry palette whose seven non-vantage entries share one
color, so every distance from the vantage ties the partition radius. -/
def cexPal : PalF :=
  { colors := [⟨0, 0, 0, 0⟩, ⟨0, 1, 0, 0⟩, ⟨0, 1, 0, 0⟩, ⟨0, 1, 0, 0⟩, ⟨0, 1, 0, 0⟩,
      ⟨0, 1, 0, 0⟩, ⟨0, 1, 0, 0⟩, ⟨0, 1, 0, 0⟩]
    pops := [1, 0, 0, 0, 0, 0, 0, 0] }

/-! ### The claims. -/

/-- C1: For every palette on which index construction succeeds and every
query color, `search` returns a squared distance equal to the minimum
over all palette entries of the color distance from the query to that
entry, and the returned palette index achieves that minimum; this holds
for every hint value. -/
theorem claim_C1 (pal : PalF) (n : Nearest) (hok : new_scalar pal = Except.ok n)
    (q : Color) (hint : ℕ) :
    (∃ c, pal.colors[(n.search_scalar q hint).1]? = some c
        ∧ (n.search_scalar q hint).2 = ((diff_scalar q c : ℚ) : WithTop ℚ))
      ∧ (n.search_scalar q hint).2 = bruteForceMin pal q :=
  search_scalar_spec pal n hok q hint

theorem claim_C1_witness :
    new_scalar twoPal = Except.ok (mkNearestScalar twoPal) ∧
      ((∃ c, twoPal.colors[((mkNearestScalar twoPal).search_scalar ⟨1, 1/2, 0, 0⟩ 0).1]? = some c
          ∧ ((mkNearestScalar twoPal).search_scalar ⟨1, 1/2, 0, 0⟩ 0).2
              = ((diff_scalar ⟨1, 1/2, 0, 0⟩ c : ℚ) : WithTop ℚ))
        ∧ ((mkNearestScalar twoPal).search_scalar ⟨1, 1/2, 0, 0⟩ 0).2
            = bruteForceMin twoPal ⟨1, 1/2, 0, 0⟩) :=
  ⟨rfl, claim_C1 twoPal (mkNearestScalar twoPal) rfl ⟨1, 1/2, 0, 0⟩ 0⟩

/-- C2: For every pair of colors with components in the normalized [0,1]
range and any capability token, the scalar distance `diff_scalar` and the
vector distance `diff_simd` differ by less than 1e-5 in absolute value
(over exact arithmetic the two compute the same per-channel
max-of-black/white formula, summing only the three color lanes, so the
difference is exactly zero). -/
theorem claim_C2 (t : SimdToken64) (a b : Color) (ha : In01 a) (hb : In01 b) :
    |diff_scalar a b - diff_simd t a b| < 1 / 100000 := by
  rw [diff_simd_eq_diff_scalar, sub_self, abs_zero]
  norm_num

theorem claim_C2_witness :
    In01 ⟨1, 0, 0, 0⟩ ∧ In01 ⟨1, 1, 0, 0⟩ ∧
      |diff_scalar ⟨1, 0, 0, 0⟩ ⟨1, 1, 0, 0⟩
        - diff_simd ⟨⟩ ⟨1, 0, 0, 0⟩ ⟨1, 1, 0, 0⟩| < 1 / 100000 :=
  ⟨by norm_num [In01], by norm_num [In01],
    claim_C2 ⟨⟩ ⟨1, 0, 0, 0⟩ ⟨1, 1, 0, 0⟩ (by norm_num [In01]) (by norm_num [In01])⟩

/-- C9: The scalar color-distance metric is symmetric: for every pair of
colors `a` and `b`, `diff_scalar a b = diff_scalar b a`. -/
theorem claim_C9 (a b : Color) : diff_scalar a b = diff_scalar b a :=
  diff_scalar_comm a b

/-- C5: Index construction returns the `Unsupported` error exactly when
the palette is empty or its length exceeds the maximum representable
palette-index value plus one; a single-entry palette and a palette of
exactly `MAX_COLORS` entries both build successfully. -/
theorem claim_C5 (pal : PalF) :
    (new_scalar pal = Except.error Error.unsupported
        ↔ (pal.colors.length = 0 ∨ PalIndexMAX + 1 < pal.colors.length))
      ∧ ((pal.colors.length = 1 ∨ pal.colors.length = MAX_COLORS)
          → ∃ n, new_scalar pal = Except.ok n) := by
  refine ⟨new_scalar_err_iff pal, ?_⟩
  intro h
  have hm : MAX_COLORS = 256 := rfl
  have hp : PalIndexMAX = 255 := rfl
  exact ⟨mkNearestScalar pal, new_scalar_ok_of_len pal (by omega) (by omega)⟩

theorem claim_C5_witness : ∃ n, new_scalar onePal = Except.ok n :=
  (claim_C5 onePal).2 (Or.inl rfl)

/-- C6: For every successfully built index and every input color and
hint, search always returns (it is a total function) a palette index
that is a valid index into the palette together with a finite squared
distance. -/
theorem claim_C6 (pal : PalF) (n : Nearest) (hok : new_scalar pal = Except.ok n)
    (q : Color) (hint : ℕ) :
    (n.search_scalar q hint).1 < pal.colors.length
      ∧ ∃ x : ℚ, (n.search_scalar q hint).2 = ((x : ℚ) : WithTop ℚ) := by
  obtain ⟨⟨c, hc, hd⟩, -⟩ := search_scalar_spec pal n hok q hint
  exact ⟨(List.getElem?_eq_some_iff.mp hc).1, ⟨diff_scalar q c, hd⟩⟩

theorem claim_C6_witness :
    new_scalar twoPal = Except.ok (mkNearestScalar twoPal) ∧
      (((mkNearestScalar twoPal).search_scalar ⟨0, 0, 1, 0⟩ 1).1 < twoPal.colors.length
        ∧ ∃ x : ℚ, ((mkNearestScalar twoPal).search_scalar ⟨0, 0, 1, 0⟩ 1).2
            = ((x : ℚ) : WithTop ℚ)) :=
  ⟨rfl, claim_C6 twoPal (mkNearestScalar twoPal) rfl ⟨0, 0, 1, 0⟩ 1⟩

/-- C7: In the tree built over a palette of N entries, each of the N
palette indices occurs exactly once as a vantage slot — as a node's
vantage index or inside exactly one leaf's inline list — and nothing
else occurs: the tree's slots are a permutation of `0..N-1`. -/
theorem claim_C7 (pal : PalF) (n : Nearest) (hok : new_scalar pal = Except.ok n) :
    (slots n.root).Perm (List.range pal.colors.length) := by
  obtain ⟨hlen, -⟩ := new_scalar_ok_len hok
  have hn := new_scalar_ok_eq hok
  subst hn
  exact (root_spec pal hlen).1

theorem claim_C7_witness :
    new_scalar cexPal = Except.ok (mkNearestScalar cexPal) ∧
      (slots (mkNearestScalar cexPal).root).Perm (List.range cexPal.colors.length) :=
  ⟨rfl, claim_C7 cexPal (mkNearestScalar cexPal) rfl⟩

/-- C10: For every successfully built index and every `likely_index`
greater than or equal to the palette length, the out-of-range hint is
treated as absent: the running best starts at infinity (`⊤`), the full
tree search runs, and the returned index and distance are the same
brute-force minimum as for any non-firing hint. -/
theorem claim_C10 (pal : PalF) (n : Nearest) (hok : new_scalar pal = Except.ok n)
    (q : Color) (hint : ℕ) (hbig : pal.colors.length ≤ hint) :
    n.search_scalar q hint
        = ((vp_search_node_scalar n.root q ⟨⊤, 0, none⟩).idx,
            (vp_search_node_scalar n.root q ⟨⊤, 0, none⟩).distance_squared)
      ∧ (∃ c, pal.colors[(n.search_scalar q hint).1]? = some c
          ∧ (n.search_scalar q hint).2 = ((diff_scalar q c : ℚ) : WithTop ℚ))
      ∧ (n.search_scalar q hint).2 = bruteForceMin pal q := by
  have hn := new_scalar_ok_eq hok
  subst hn
  have hh : (mkNearestScalar pal).palette.colors[hint]? = none :=
    List.getElem?_eq_none hbig
  obtain ⟨h1, h2⟩ := search_scalar_spec pal (mkNearestScalar pal) hok q hint
  exact ⟨search_scalar_oob (mkNearestScalar pal) q hint hh, h1, h2⟩

theorem claim_C10_witness :
    new_scalar onePal = Except.ok (mkNearestScalar onePal) ∧ onePal.colors.length ≤ 3 ∧
      ((mkNearestScalar onePal).search_scalar ⟨0, 0, 0, 0⟩ 3
          = ((vp_search_node_scalar (mkNearestScalar onePal).root ⟨0, 0, 0, 0⟩
              ⟨⊤, 0, none⟩).idx,
            (vp_search_node_scalar (mkNearestScalar onePal).root ⟨0, 0, 0, 0⟩
              ⟨⊤, 0, none⟩).distance_squared)
        ∧ (∃ c, onePal.colors[((mkNearestScalar onePal).search_scalar ⟨0, 0, 0, 0⟩ 3).1]? = some c
            ∧ ((mkNearestScalar onePal).search_scalar ⟨0, 0, 0, 0⟩ 3).2
                = ((diff_scalar ⟨0, 0, 0, 0⟩ c : ℚ) : WithTop ℚ))
        ∧ ((mkNearestScalar onePal).search_scalar ⟨0, 0, 0, 0⟩ 3).2
            = bruteForceMin onePal ⟨0, 0, 0, 0⟩) :=
  ⟨rfl, by norm_num [onePal],
    claim_C10 onePal (mkNearestScalar onePal) rfl ⟨0, 0, 0, 0⟩ 3 (by norm_num [onePal])⟩

/-- C3: Whenever the fast-path short-circuit in search fires — the direct
squared distance from the query to the palette entry at a valid
`likely_index` is strictly less than that entry's cached quartered
nearest-other-color squared distance — the pair `(likely_index, direct
distance)` that search returns equals the brute-force minimum over all
palette entries. -/
theorem claim_C3 (pal : PalF) (n : Nearest) (hok : new_scalar pal = Except.ok n)
    (hint : ℕ) (c : Color) (hh : pal.colors[hint]? = some c) (q : Color)
    (hfire : diff_scalar q c < n.nearest_other_color_dist.getD hint 0) :
    n.search_scalar q hint = (hint, ((diff_scalar q c : ℚ) : WithTop ℚ))
      ∧ ((diff_scalar q c : ℚ) : WithTop ℚ) = bruteForceMin pal q := by
  obtain ⟨hlen, hle⟩ := new_scalar_ok_len hok
  have hn := new_scalar_ok_eq hok
  subst hn
  refine ⟨search_scalar_fire (mkNearestScalar pal) q hint c hh hfire, ?_⟩
  refine bruteForceMin_eq ⟨c, List.getElem?_mem hh, rfl⟩ ?_
  intro c' hc'
  have := fast_path_bound pal hlen
    (by show pal.colors.length ≤ MAX_COLORS; simpa [PalIndexMAX, MAX_COLORS] using hle)
    hint c hh q hfire c' hc'
  exact_mod_cast this

/-- C4: After construction succeeds on a normalized palette with at least
two entries, `nearest_other_color_dist[i]` equals, for every palette
index `i`, one quarter of the minimum squared color distance from entry
`i` to any other palette entry; and the warm-up search with
`exclude = Some(i)` never reports `i` itself as the nearest neighbor. -/
theorem claim_C4 (pal : PalF) (n : Nearest) (hok : new_scalar pal = Except.ok n)
    (hnorm : ∀ c ∈ pal.colors, In01 c) (h2 : 2 ≤ pal.colors.length)
    (i : ℕ) (hi : i < pal.colors.length) :
    (∃ m : ℚ, bruteMinExcl pal i = ((m : ℚ) : WithTop ℚ)
        ∧ n.nearest_other_color_dist.getD i 0 = m / 4)
      ∧ (warmUp n.root pal i).idx ≠ i := by
  obtain ⟨hlen, hle⟩ := new_scalar_ok_len hok
  have hn := new_scalar_ok_eq hok
  subst hn
  obtain ⟨heq, hidx⟩ := warmUp_eq_min pal hnorm h2 i hi
  obtain ⟨m, hm⟩ := WithTop.ne_top_iff_exists.mp (warmUp_ne_top pal i)
  refine ⟨⟨m, ?_, ?_⟩, hidx⟩
  · rw [← heq, ← hm]
  · rw [mkNearest_nodc_getD pal i hi
      (by show pal.colors.length ≤ MAX_COLORS; simpa [PalIndexMAX, MAX_COLORS] using hle),
      ← hm]
    rfl

theorem claim_C4_witness :
    new_scalar twoPal = Except.ok (mkNearestScalar twoPal)
      ∧ (∀ c ∈ twoPal.colors, In01 c) ∧ 2 ≤ twoPal.colors.length ∧ 0 < twoPal.colors.length
      ∧ ((∃ m : ℚ, bruteMinExcl twoPal 0 = ((m : ℚ) : WithTop ℚ)
          ∧ (mkNearestScalar twoPal).nearest_other_color_dist.getD 0 0 = m / 4)
        ∧ (warmUp (mkNearestScalar twoPal).root twoPal 0).idx ≠ 0) :=
  ⟨rfl, by intro c hc; fin_cases hc <;> norm_num [In01], by norm_num [twoPal],
    by norm_num [twoPal],
    claim_C4 twoPal (mkNearestScalar twoPal) rfl
      (by intro c hc; fin_cases hc <;> norm_num [In01]) (by norm_num [twoPal]) 0
      (by norm_num [twoPal])⟩

lemma onePal_root : (mkNearestScalar onePal).root = Node.leaf ⟨1, 0, 0, 0⟩ 0 [] := rfl

lemma onePal_warm : warmUp (mkNearestScalar onePal).root onePal 0
    = ⟨((f32MAX : ℚ) : WithTop ℚ), 0, some 0⟩ := by
  unfold warmUp
  rw [onePal_root, vp_search_leaf]
  show Visitor.visit _ _ 0 = _
  simp [Visitor.visit]

lemma onePal_nodc :
    (mkNearestScalar onePal).nearest_other_color_dist.getD 0 0 = f32MAX / 4 := by
  rw [mkNearest_nodc_getD onePal 0 (by norm_num [onePal]) (by norm_num [onePal, MAX_COLORS]),
    onePal_warm]
  rfl

theorem claim_C3_witness :
    new_scalar onePal = Except.ok (mkNearestScalar onePal)
      ∧ onePal.colors[0]? = some ⟨1, 0, 0, 0⟩
      ∧ diff_scalar ⟨1, 0, 0, 0⟩ ⟨1, 0, 0, 0⟩
          < (mkNearestScalar onePal).nearest_other_color_dist.getD 0 0
      ∧ ((mkNearestScalar onePal).search_scalar ⟨1, 0, 0, 0⟩ 0
            = (0, ((diff_scalar ⟨1, 0, 0, 0⟩ ⟨1, 0, 0, 0⟩ : ℚ) : WithTop ℚ))
        ∧ ((diff_scalar ⟨1, 0, 0, 0⟩ ⟨1, 0, 0, 0⟩ : ℚ) : WithTop ℚ)
            = bruteForceMin onePal ⟨1, 0, 0, 0⟩) := by
  have hfire : diff_scalar ⟨1, 0, 0, 0⟩ ⟨1, 0, 0, 0⟩
      < (mkNearestScalar onePal).nearest_other_color_dist.getD 0 0 := by
    rw [onePal_nodc]
    norm_num [diff_scalar, f32MAX]
  exact ⟨rfl, rfl, hfire, claim_C3 onePal (mkNearestScalar onePal) rfl 0 ⟨1, 0, 0, 0⟩ rfl
    ⟨1, 0, 0, 0⟩ hfire⟩

/-- C8 (amended): For every internal node of a built tree, the node's
squared radius equals the squared color distance from its vantage to some
entry of its far partition (its first element) and bounds all far-subtree
slots from below, every near-subtree slot lies within (at most) that
radius, and every far-subtree slot lies at distance at least that radius.
An entry whose distance ties the radius may be placed in either subtree —
the midpoint split, not the tie value, decides (see the
counterexample). -/
theorem claim_C8_amended (pal : PalF) (n : Nearest) (hok : new_scalar pal = Except.ok n) :
    ∀ x ∈ internals n.root,
      (∀ e ∈ slots x.near, ∃ c, pal.colors[e]? = some c
        ∧ diff_scalar x.vantage_point c ≤ x.radius_squared)
      ∧ (∀ e ∈ slots x.far, ∃ c, pal.colors[e]? = some c
        ∧ x.radius_squared ≤ diff_scalar x.vantage_point c)
      ∧ (∃ e ∈ slots x.far, ∃ c, pal.colors[e]? = some c
        ∧ diff_scalar x.vantage_point c = x.radius_squared) := by
  obtain ⟨hlen, -⟩ := new_scalar_ok_len hok
  have hn := new_scalar_ok_eq hok
  subst hn
  obtain ⟨-, VR, BR⟩ := root_spec pal hlen
  exact internals_bounds pal _ BR VR

theorem claim_C8_amended_witness :
    new_scalar cexPal = Except.ok (mkNearestScalar cexPal) ∧
      ∀ x ∈ internals (mkNearestScalar cexPal).root,
        (∀ e ∈ slots x.near, ∃ c, cexPal.colors[e]? = some c
          ∧ diff_scalar x.vantage_point c ≤ x.radius_squared)
        ∧ (∀ e ∈ slots x.far, ∃ c, cexPal.colors[e]? = some c
          ∧ x.radius_squared ≤ diff_scalar x.vantage_point c)
        ∧ (∃ e ∈ slots x.far, ∃ c, cexPal.colors[e]? = some c
          ∧ diff_scalar x.vantage_point c = x.radius_squared) :=
  ⟨rfl, claim_C8_amended cexPal (mkNearestScalar cexPal) rfl⟩

/-- C8 (counterexample): On `cexPal`, a successfully built tree has an
internal node whose near subtree contains a slot at distance exactly the
radius from the vantage (so an entry tying the radius is NOT placed in the
far subtree), and whose far subtree contains a slot at distance exactly
the radius (so a far-subtree entry DOES lie within the radius,
understanding "within" inclusively).  This refutes the claim's "every
descendant vantage in the far subtree does not [lie within that radius]"
and "entries whose distance ties the radius are placed in the far
subtree". -/
theorem claim_C8_counterexample :
    ∃ n : Nearest, new_scalar cexPal = Except.ok n ∧
      ∃ x ∈ internals n.root,
        (∃ e ∈ slots x.near, ∃ c, cexPal.colors[e]? = some c ∧
          diff_scalar x.vantage_point c = x.radius_squared) ∧
        (∃ e ∈ slots x.far, ∃ c, cexPal.colors[e]? = some c ∧
          diff_scalar x.vantage_point c = x.radius_squared) := by
  have hlen8 : cexPal.colors.length = 8 := rfl
  have hok : new_scalar cexPal = Except.ok (mkNearestScalar cexPal) :=
    new_scalar_ok_of_len cexPal (by rw [hlen8]; omega) (by rw [hlen8]; norm_num [PalIndexMAX])
  refine ⟨mkNearestScalar cexPal, hok, ?_⟩
  have hrange : List.range cexPal.colors.length = [0,1,2,3,4,5,6,7] := rfl
  have hrest : vpRest cexPal (List.range cexPal.colors.length) = [1,2,3,4,5,6,7] := by
    rw [hrange]
    norm_num [vpRest, swapToFront, lastArgmax, lastArgmaxAux, popKey, cexPal, List.set]
  have hsortperm : (vpSorted cexPal (List.range cexPal.colors.length)).Perm
      (vpRest cexPal (List.range cexPal.colors.length)) := List.perm_insertionSort _ _
  have hsortlen : (vpSorted cexPal (List.range cexPal.colors.length)).length = 7 := by
    rw [hsortperm.length_eq, hrest]
    rfl
  have hlen81 : (List.range cexPal.colors.length).length = 7 + 1 := by
    rw [hrange]
    rfl
  have hne1 : ¬ (List.range cexPal.colors.length).length ≤ 1 := by
    rw [hlen81]
    omega
  have h6 : ¬ (vpSorted cexPal (List.range cexPal.colors.length)).length ≤ LEAF_MAX_SIZE := by
    rw [hsortlen]
    norm_num [LEAF_MAX_SIZE]
  have hroot : (mkNearestScalar cexPal).root =
      Node.nodes (vpVantage cexPal (List.range cexPal.colors.length))
        (vpRef cexPal (List.range cexPal.colors.length))
        (sortKey cexPal.colors (vpVantage cexPal (List.range cexPal.colors.length))
          (((vpSorted cexPal (List.range cexPal.colors.length)).drop
            ((vpSorted cexPal (List.range cexPal.colors.length)).length / 2)).headD 0))
        (vpCreateNodeFuel cexPal 7
          ((vpSorted cexPal (List.range cexPal.colors.length)).take
            ((vpSorted cexPal (List.range cexPal.colors.length)).length / 2)))
        (vpCreateNodeFuel cexPal 7
          ((vpSorted cexPal (List.range cexPal.colors.length)).drop
            ((vpSorted cexPal (List.range cexPal.colors.length)).length / 2))) := by
    rw [mkNearest_root, hlen81, vpCreate_succ cexPal 7 _ hne1, if_neg h6]
  obtain ⟨PR, VR, BR⟩ := root_spec cexPal (by rw [hlen8]; omega)
  have hx : (⟨vpVantage cexPal (List.range cexPal.colors.length),
      sortKey cexPal.colors (vpVantage cexPal (List.range cexPal.colors.length))
        (((vpSorted cexPal (List.range cexPal.colors.length)).drop
          ((vpSorted cexPal (List.range cexPal.colors.length)).length / 2)).headD 0),
      vpCreateNodeFuel cexPal 7
        ((vpSorted cexPal (List.range cexPal.colors.length)).take
          ((vpSorted cexPal (List.range cexPal.colors.length)).length / 2)),
      vpCreateNodeFuel cexPal 7
        ((vpSorted cexPal (List.range cexPal.colors.length)).drop
          ((vpSorted cexPal (List.range cexPal.colors.length)).length / 2))⟩ : InternalView)
      ∈ internals (mkNearestScalar cexPal).root := by
    rw [hroot]
    simp only [internals]
    exact List.mem_cons_self _ _
  have hmemrest : ∀ e ∈ vpSorted cexPal (List.range cexPal.colors.length),
      e ∈ ([1,2,3,4,5,6,7] : List ℕ) := by
    intro e he
    rw [← hrest]
    exact hsortperm.mem_iff.mp he
  have hcolor : ∀ e ∈ ([1,2,3,4,5,6,7] : List ℕ),
      cexPal.colors[e]? = some ⟨0,1,0,0⟩ := by
    intro e he
    fin_cases he <;> rfl
  have hib := internals_bounds cexPal (mkNearestScalar cexPal).root BR VR _ hx
  obtain ⟨-, -, f, hfmem, cf, hcf, heqf⟩ := hib
  have hfarlen : ((vpSorted cexPal (List.range cexPal.colors.length)).drop
      ((vpSorted cexPal (List.range cexPal.colors.length)).length / 2)).length = 4 := by
    rw [List.length_drop, hsortlen]
  have hfarne : (vpSorted cexPal (List.range cexPal.colors.length)).drop
      ((vpSorted cexPal (List.range cexPal.colors.length)).length / 2) ≠ [] := by
    intro hc
    rw [hc] at hfarlen
    simp at hfarlen
  have hfarval : ∀ e ∈ (vpSorted cexPal (List.range cexPal.colors.length)).drop
      ((vpSorted cexPal (List.range cexPal.colors.length)).length / 2),
      e < cexPal.colors.length := by
    intro e he
    have hmem := hmemrest e (List.mem_of_mem_drop he)
    rw [hlen8]
    fin_cases hmem <;> norm_num
  obtain ⟨Pf, Vf, Bf⟩ := vpCreate_spec cexPal 7 _ hfarne (by rw [hfarlen]; omega) hfarval
  have hfrest : f ∈ ([1,2,3,4,5,6,7] : List ℕ) :=
    hmemrest f (List.mem_of_mem_drop (Pf.mem_iff.mp hfmem))
  have hcf2 : cf = ⟨0,1,0,0⟩ := by
    have := hcolor f hfrest
    rw [this] at hcf
    exact (Option.some_inj.mp hcf).symm
  have hnearlen : ((vpSorted cexPal (List.range cexPal.colors.length)).take
      ((vpSorted cexPal (List.range cexPal.colors.length)).length / 2)).length = 3 := by
    rw [List.length_take, hsortlen]
    rfl
  have hnearne : (vpSorted cexPal (List.range cexPal.colors.length)).take
      ((vpSorted cexPal (List.range cexPal.colors.length)).length / 2) ≠ [] := by
    intro hc
    rw [hc] at hnearlen
    simp at hnearlen
  have hnearval : ∀ e ∈ (vpSorted cexPal (List.range cexPal.colors.length)).take
      ((vpSorted cexPal (List.range cexPal.colors.length)).length / 2),
      e < cexPal.colors.length := by
    intro e he
    have hmem := hmemrest e (List.mem_of_mem_take he)
    rw [hlen8]
    fin_cases hmem <;> norm_num
  obtain ⟨Pn, Vn, Bn⟩ := vpCreate_spec cexPal 7 _ hnearne (by rw [hnearlen]; omega) hnearval
  have hslotsne : slots (vpCreateNodeFuel cexPal 7
      ((vpSorted cexPal (List.range cexPal.colors.length)).take
        ((vpSorted cexPal (List.range cexPal.colors.length)).length / 2))) ≠ [] := by
    intro hc
    have hpl := Pn.length_eq
    rw [hc, hnearlen] at hpl
    simp at hpl
  obtain ⟨e, he⟩ := List.exists_mem_of_ne_nil _ hslotsne
  have herest : e ∈ ([1,2,3,4,5,6,7] : List ℕ) :=
    hmemrest e (List.mem_of_mem_take (Pn.mem_iff.mp he))
  refine ⟨_, hx, ⟨e, he, ⟨0,1,0,0⟩, hcolor e herest, ?_⟩, ⟨f, hfmem, cf, hcf, heqf⟩⟩
  rw [← hcf2]
  exact heqf
